import Mathlib

/-!
Verification of the hierarchical balance-transfer and downline-resolution
subsystem of the Multi-Level-User-Management repository.

The backend stores users in MongoDB; here a database snapshot is a list of
user records (newest record first, i.e. reverse creation order) together
with the list of transaction records.  Monetary amounts are rationals
(the JS source uses IEEE doubles via parseFloat; all claims here concern
exact arithmetic identities that hold over the rationals).

Mongo session semantics (startTransaction / abortTransaction /
commitTransaction) are modelled by having each route handler return either
an error (abort: the pre-state is kept unchanged) or the committed
post-state.
-/

namespace UserMgmt

/-- A user document (backend/models/User.js fields used by the core):
`createdBy` is the parent reference (`none` for roots). -/
structure UserRec where
  uid : Nat
  username : String
  role : String
  balance : Rat
  createdBy : Option Nat
  isActive : Bool := true
deriving Repr, DecidableEq

/-- A transaction document (backend/models/Transaction.js fields produced
by the balance routes). -/
structure Txn where
  userId : Nat
  type : String
  amount : Rat
  previousBalance : Rat
  newBalance : Rat
  description : String
  performedBy : Nat
deriving Repr, DecidableEq

/-- A database snapshot: the Users collection and the Transactions
collection. -/
structure St where
  users : List UserRec
  txns : List Txn
deriving Repr, DecidableEq

/-- `User.findById`: first record with the given id. -/
def findUser (us : List UserRec) (i : Nat) : Option UserRec :=
  us.find? (fun u => u.uid == i)

/-- Balance of the user with id `i` (0 if absent); a reading convenience
for stating theorems. -/
def balOf (us : List UserRec) (i : Nat) : Rat :=
  match findUser us i with
  | some u => u.balance
  | none => 0

/-- `User.findByIdAndUpdate(i, balance := b)`: rewrite the balance of the
record(s) with id `i`. -/
def setBalance (us : List UserRec) (i : Nat) (b : Rat) : List UserRec :=
  us.map (fun u => if u.uid = i then { u with balance := b } else u)

/-- `User.find(createdBy == i)`: the direct children of user `i`. -/
def childrenOf (us : List UserRec) (i : Nat) : List UserRec :=
  us.filter (fun u => u.createdBy == some i)

/-- utils/downline.js `getParent`: the immediate parent of a user, or
`none` when the user is missing, is a root, or the parent record is gone. -/
def getParent (us : List UserRec) (userId : Nat) : Option UserRec :=
  match findUser us userId with
  | none => none
  | some u =>
    match u.createdBy with
    | none => none
    | some p => findUser us p

/-- utils/downline.js `isInDownline`, with explicit recursion fuel (the JS
function recurses on the `createdBy` chain, which is finite in any
well-formed database). -/
def isInDownlineF (us : List UserRec) : Nat → Nat → Nat → Bool
  | 0, _, _ => false
  | fuel + 1, parentId, childId =>
    if parentId = childId then false
    else
      match findUser us childId with
      | none => false
      | some childUser =>
        match childUser.createdBy with
        | none => false
        | some cb => if cb = parentId then true else isInDownlineF us fuel parentId cb

/-- utils/downline.js `isInDownline` at the canonical fuel. -/
def isInDownline (us : List UserRec) (parentId childId : Nat) : Bool :=
  isInDownlineF us (us.length + 1) parentId childId

/-- utils/downline.js `getDownline`, with explicit recursion fuel.  The JS
function returns `[await User.findById(userId)]` as the seed when
`includeSelf` is set, which is `[null]` for a missing user; hence the
element type `Option UserRec`. -/
def getDownlineF (us : List UserRec) : Nat → Nat → Bool → List (Option UserRec)
  | 0, _, _ => []
  | fuel + 1, userId, includeSelf =>
    let directChildren := childrenOf us userId
    (if includeSelf then [findUser us userId] else []) ++
      directChildren.map some ++
      (directChildren.map (fun c => getDownlineF us fuel c.uid false)).flatten

/-- utils/downline.js `getDownline` at the canonical fuel. -/
def getDownline (us : List UserRec) (userId : Nat) (includeSelf : Bool) : List (Option UserRec) :=
  getDownlineF us (us.length + 1) userId includeSelf

/-- One step up the `createdBy` chain. -/
def parentStep (us : List UserRec) (c : Nat) : Option Nat :=
  match findUser us c with
  | none => none
  | some u => u.createdBy

/-- `n` steps up the `createdBy` chain (`none` once the chain ends or a
lookup fails). -/
def parentIterN (us : List UserRec) : Nat → Nat → Option Nat
  | 0, c => some c
  | n + 1, c =>
    match parentStep us c with
    | none => none
    | some p => parentIterN us n p

/-- The parent chain of `c` reaches `a` after at least one step. -/
def reaches (us : List UserRec) (a c : Nat) : Prop :=
  ∃ n, parentIterN us (n + 1) c = some a

/-- Well-formed Users collection, newest record first: ids are unique and
every `createdBy` reference points at an older (later-in-list) record.
This is the invariant the registration route maintains (a parent always
pre-exists before a child references it, and re-parenting is impossible). -/
def wfUsers : List UserRec → Bool
  | [] => true
  | u :: rest =>
    rest.all (fun v => v.uid != u.uid) &&
      (match u.createdBy with
       | none => true
       | some p => rest.any (fun v => v.uid == p)) &&
      wfUsers rest

/-- frontend auth.service.ts role table (`roleHierarchy`, unknown roles
rank 0). -/
def roleHierarchy (role : String) : Nat :=
  if role = "super_admin" then 4
  else if role = "admin" then 3
  else if role = "moderator" then 2
  else if role = "user" then 1
  else 0

/-- frontend auth.service.ts `canManageUser` (a null current user cannot
manage anyone; otherwise pure rank comparison). -/
def canManageUser (currentUser : Option UserRec) (targetUser : UserRec) : Bool :=
  match currentUser with
  | none => false
  | some cu => decide (roleHierarchy targetUser.role < roleHierarchy cu.role)

/-- routes/users.js PUT /users/:id role-change guard (lines 208-222):
super_admin may set any role; an admin may set a role only when neither
the new role nor the target user current role is admin or super_admin. -/
def roleUpdateAllowed (actorRole newRole targetCurrentRole : String) : Bool :=
  if actorRole = "super_admin" then true
  else if actorRole = "admin" ∧ ¬(newRole = "admin" ∨ newRole = "super_admin") ∧
      ¬(targetCurrentRole = "admin" ∨ targetCurrentRole = "super_admin") then true
  else false

/-- The role-change part of the PUT /users/:id handler as a state
transformer: `(false, us)` models the 403 response (no write reaches the
store); the handler also performs no write when the target id is absent. -/
def updateUserRoleOp (us : List UserRec) (actorRole : String) (targetId : Nat)
    (newRole : String) : Bool × List UserRec :=
  match findUser us targetId with
  | none => (false, us)
  | some target =>
    if roleUpdateAllowed actorRole newRole target.role then
      (true, us.map (fun u => if u.uid = targetId then { u with role := newRole } else u))
    else (false, us)

/-- Outcome of the role-assignment logic in POST /register. -/
inductive RegisterRole where
  | assigned (r : String)
  | forbidden
deriving Repr, DecidableEq

/-- routes/users.js POST /register role assignment for an authenticated
creator (lines 703-741): super_admin assigns anything; admin assigns
user, moderator or admin; anyone else may only request the role `user`;
with no role requested the default is `user`. -/
def registerAssignedRole (creatorRole : String) (requested : Option String) : RegisterRole :=
  match requested with
  | some role =>
    if creatorRole = "super_admin" then .assigned role
    else if creatorRole = "admin" ∧ (role = "user" ∨ role = "moderator" ∨ role = "admin") then
      .assigned role
    else if ¬(creatorRole = "admin" ∨ creatorRole = "super_admin") ∧ role = "user" then
      .assigned "user"
    else .forbidden
  | none => .assigned "user"

/-- JS `description || fallback`: the fallback is used when the field is
absent or the empty string (falsy). -/
def descOrDefault (d : Option String) (fallback : String) : String :=
  match d with
  | none => fallback
  | some t => if t = "" then fallback else t

/-- Transaction.js schema validation applied by `save`: amount at least
0.01, description present, non-empty and at most 500 characters.  A save
that fails validation throws, which the route catch-block turns into a
500 after aborting the session. -/
def txnSaveOk (t : Txn) : Bool :=
  decide ((1 : Rat) / 100 ≤ t.amount ∧ ¬ t.description = "" ∧ t.description.length ≤ 500)

/-- Error responses of the two balance routes. -/
inductive BalanceError where
  | unauthorized
  | forbidden
  | notFound
  | insufficient
  | validation
  | internal
deriving Repr, DecidableEq

/-- Successful response of POST /balance/add, together with the committed
post-state. -/
structure AddBalanceOk where
  newState : St
  transaction : Txn
  newBalance : Rat
  deductedFrom : Option (Nat × String × Rat × Rat)
deriving Repr, DecidableEq

/-- routes/balance.js POST /balance/add handler body (lines 28-172),
after the middleware chain.  `senderId` is the authenticated actor
(`req.user`).  Every `.error` models `abortTransaction` followed by the
corresponding error response: the pre-state survives unchanged.  The two
reads `payer.balance` in the `deductedFrom` response reproduce the source
verbatim: they read the payer document fetched before the update, which
`findByIdAndUpdate` does not mutate. -/
def addBalance (s : St) (senderId userId : Nat) (amount : Rat)
    (description : Option String) : Except BalanceError AddBalanceOk :=
  match findUser s.users senderId with
  | none => .error .internal
  | some reqUser =>
  match findUser s.users userId with
  | none => .error .notFound
  | some targetUser =>
  if ¬ senderId = userId ∧ isInDownline s.users senderId userId = false ∧
      ¬ (reqUser.role = "admin" ∨ reqUser.role = "super_admin") then
    .error .forbidden
  else
  let payerPair : Nat × Option UserRec :=
    if senderId = userId then (senderId, some reqUser)
    else
      match getParent s.users userId with
      | some parent => (parent.uid, findUser s.users parent.uid)
      | none => (senderId, some reqUser)
  match payerPair.2 with
  | none =>
    -- a vanished payer document makes the JS handler dereference null
    -- and fail with a 500; unreachable because the payer id was just
    -- resolved inside the same session
    .error .internal
  | some payer =>
  if ¬ senderId = userId ∧ payer.balance < amount then
    .error .insufficient
  else
  let payerNewBalance := payer.balance - amount
  let debitTxn : Txn :=
    { userId := payerPair.1, type := "debit", amount := amount,
      previousBalance := payer.balance, newBalance := payerNewBalance,
      description := descOrDefault description ("Transfer to " ++ targetUser.username),
      performedBy := senderId }
  if (¬ senderId = userId ∧ ¬ payerPair.1 = userId) ∧ txnSaveOk debitTxn = false then
    .error .internal
  else
  let users1 :=
    if ¬ senderId = userId ∧ ¬ payerPair.1 = userId then
      setBalance s.users payerPair.1 payerNewBalance
    else s.users
  let txns1 :=
    if ¬ senderId = userId ∧ ¬ payerPair.1 = userId then s.txns ++ [debitTxn] else s.txns
  let targetNewBalance := targetUser.balance + amount
  let creditTxn : Txn :=
    { userId := userId, type := "credit", amount := amount,
      previousBalance := targetUser.balance, newBalance := targetNewBalance,
      description := descOrDefault description
        (if payerPair.1 = senderId then "Transfer from " ++ payer.username
         else "Credit from admin"),
      performedBy := senderId }
  if txnSaveOk creditTxn = false then .error .internal
  else
  .ok { newState := { users := setBalance users1 userId targetNewBalance,
                      txns := txns1 ++ [creditTxn] },
        transaction := creditTxn,
        newBalance := targetNewBalance,
        deductedFrom :=
          if ¬ payerPair.1 = userId then
            some (payerPair.1, payer.username, payer.balance + amount, payer.balance)
          else none }

/-- middleware/validation.js `validateBalanceOperation` on the
description field: required, non-empty, at most 500 characters. -/
def validDescription (d : Option String) : Bool :=
  match d with
  | none => false
  | some t => decide (¬ t = "" ∧ t.length ≤ 500)

/-- POST /balance/add with its middleware chain: `authenticateToken`
(actor must resolve), `requireRole(admin, super_admin)` and
`validateBalanceOperation` (amount strictly positive, description
present). -/
def addBalanceRoute (s : St) (senderId userId : Nat) (amount : Rat)
    (description : Option String) : Except BalanceError AddBalanceOk :=
  match findUser s.users senderId with
  | none => .error .unauthorized
  | some reqUser =>
    if ¬ (reqUser.role = "admin" ∨ reqUser.role = "super_admin") then .error .forbidden
    else if ¬ 0 < amount then .error .validation
    else if validDescription description = false then .error .validation
    else addBalance s senderId userId amount description

/-- The description field the deduct handler stores: the raw body value,
or the empty string when the field is absent (which the Transaction
schema then rejects at save). -/
def descValue : Option String → String
  | some t => t
  | none => ""

/-- Successful response of POST /balance/deduct, with the committed
post-state. -/
structure DeductBalanceOk where
  newState : St
  transaction : Txn
  newBalance : Rat
deriving Repr, DecidableEq

/-- routes/balance.js POST /balance/deduct handler body (lines 175-263).
The permission predicate `cm` stands for the mongoose method
`req.user.canManage(target)` of the User model (declared outside the
repository slice under verification); every theorem below holds for an
arbitrary such predicate. -/
def deductBalance (cm : UserRec → UserRec → Bool) (s : St) (actorId userId : Nat)
    (amount : Rat) (description : Option String) : Except BalanceError DeductBalanceOk :=
  match findUser s.users actorId with
  | none => .error .internal
  | some reqUser =>
  match findUser s.users userId with
  | none => .error .notFound
  | some user =>
  if cm reqUser user = false ∧ ¬ actorId = userId then .error .forbidden
  else
  if user.balance < amount then .error .insufficient
  else
  let newBalance := user.balance - amount
  let txn : Txn :=
    { userId := userId, type := "debit", amount := amount,
      previousBalance := user.balance, newBalance := newBalance,
      description := descValue description,
      performedBy := actorId }
  if txnSaveOk txn = false then .error .internal
  else
  .ok { newState := { users := setBalance s.users userId newBalance,
                      txns := s.txns ++ [txn] },
        transaction := txn,
        newBalance := newBalance }

/-- POST /balance/deduct with its middleware chain. -/
def deductBalanceRoute (cm : UserRec → UserRec → Bool) (s : St) (actorId userId : Nat)
    (amount : Rat) (description : Option String) : Except BalanceError DeductBalanceOk :=
  match findUser s.users actorId with
  | none => .error .unauthorized
  | some reqUser =>
    if ¬ (reqUser.role = "admin" ∨ reqUser.role = "super_admin") then .error .forbidden
    else if ¬ 0 < amount then .error .validation
    else if validDescription description = false then .error .validation
    else deductBalance cm s actorId userId amount description

/-- A balance-affecting request, as accepted by the two routes. -/
inductive BalanceOp where
  | add (senderId userId : Nat) (amount : Rat) (description : Option String)
  | deduct (actorId userId : Nat) (amount : Rat) (description : Option String)
deriving Repr, DecidableEq

/-- Observable effect of one request on the store: an error response
leaves the aborted session invisible, so the state is unchanged. -/
def runOp (cm : UserRec → UserRec → Bool) (s : St) : BalanceOp → St
  | .add sid uid a d =>
    match addBalanceRoute s sid uid a d with
    | .ok r => r.newState
    | .error _ => s
  | .deduct aid uid a d =>
    match deductBalanceRoute cm s aid uid a d with
    | .ok r => r.newState
    | .error _ => s

/-- Observable effect of a sequence of requests. -/
def runOps (cm : UserRec → UserRec → Bool) (s : St) (ops : List BalanceOp) : St :=
  ops.foldl (runOp cm) s

/-- All balances non-negative. -/
def NonNeg (us : List UserRec) : Prop := ∀ u ∈ us, 0 ≤ u.balance

lemma findUser_nil (c : Nat) : findUser [] c = none := rfl

lemma findUser_cons (u : UserRec) (rest : List UserRec) (c : Nat) :
    findUser (u :: rest) c = if u.uid = c then some u else findUser rest c := by
  by_cases h : u.uid = c
  · simp [findUser, List.find?_cons_of_pos, h]
  · simp [findUser, List.find?_cons_of_neg, h]

lemma findUser_uid {us : List UserRec} {c : Nat} {v : UserRec}
    (h : findUser us c = some v) : v.uid = c := by
  have := List.find?_some h
  simpa using this

lemma mem_of_findUser {us : List UserRec} {c : Nat} {v : UserRec}
    (h : findUser us c = some v) : v ∈ us :=
  List.mem_of_find?_eq_some h

lemma findUser_isSome_of_mem {us : List UserRec} {v : UserRec}
    (hv : v ∈ us) {c : Nat} (hc : v.uid = c) : (findUser us c).isSome := by
  rw [findUser, List.find?_isSome]
  exact ⟨v, hv, by simp [hc]⟩

lemma setBalance_cons (u : UserRec) (rest : List UserRec) (i : Nat) (b : Rat) :
    setBalance (u :: rest) i b =
      (if u.uid = i then { u with balance := b } else u) :: setBalance rest i b := by
  simp [setBalance]

lemma findUser_setBalance_ne (us : List UserRec) (i : Nat) (b : Rat) {j : Nat}
    (h : ¬ j = i) : findUser (setBalance us i b) j = findUser us j := by
  induction us with
  | nil => rfl
  | cons u rest ih =>
    rw [setBalance_cons, findUser_cons, findUser_cons]
    by_cases hu : u.uid = i
    · have huj : ¬ u.uid = j := by
        intro hj
        exact h (hj ▸ hu)
      have hij : ¬ i = j := fun hij => h hij.symm
      simp [hu, huj, hij, ih]
    · simp [hu, ih]

lemma findUser_setBalance_eq (us : List UserRec) (i : Nat) (b : Rat) :
    findUser (setBalance us i b) i =
      (findUser us i).map (fun u => { u with balance := b }) := by
  induction us with
  | nil => rfl
  | cons u rest ih =>
    rw [setBalance_cons, findUser_cons, findUser_cons]
    by_cases hu : u.uid = i
    · simp [hu]
    · simp [hu, ih]

lemma balOf_eq_balance {us : List UserRec} {c : Nat} {v : UserRec}
    (h : findUser us c = some v) : balOf us c = v.balance := by
  simp [balOf, h]

lemma balOf_setBalance_ne (us : List UserRec) (i : Nat) (b : Rat) {j : Nat}
    (h : ¬ j = i) : balOf (setBalance us i b) j = balOf us j := by
  simp [balOf, findUser_setBalance_ne us i b h]

lemma balOf_setBalance_eq {us : List UserRec} {i : Nat} (b : Rat) {v : UserRec}
    (h : findUser us i = some v) : balOf (setBalance us i b) i = b := by
  simp [balOf, findUser_setBalance_eq, h]

lemma NonNeg_setBalance {us : List UserRec} {b : Rat} (i : Nat)
    (hN : NonNeg us) (hb : 0 ≤ b) : NonNeg (setBalance us i b) := by
  intro v hv
  rcases List.mem_map.mp hv with ⟨u, hu, rfl⟩
  by_cases h : u.uid = i <;> simp [h, hb, hN u hu]

lemma wf_tail {u : UserRec} {rest : List UserRec}
    (h : wfUsers (u :: rest) = true) : wfUsers rest = true := by
  rw [wfUsers] at h
  exact (Bool.and_eq_true_iff.mp h).2

lemma wf_head_fresh {u : UserRec} {rest : List UserRec}
    (h : wfUsers (u :: rest) = true) : ∀ v ∈ rest, ¬ v.uid = u.uid := by
  rw [wfUsers] at h
  have h1 := (Bool.and_eq_true_iff.mp (Bool.and_eq_true_iff.mp h).1).1
  intro v hv
  have := List.all_eq_true.mp h1 v hv
  simpa using this

lemma wf_head_parent {u : UserRec} {rest : List UserRec}
    (h : wfUsers (u :: rest) = true) {p : Nat} (hp : u.createdBy = some p) :
    ∃ v ∈ rest, v.uid = p := by
  rw [wfUsers] at h
  have h2 := (Bool.and_eq_true_iff.mp (Bool.and_eq_true_iff.mp h).1).2
  rw [hp] at h2
  rcases List.any_eq_true.mp h2 with ⟨v, hv, hvp⟩
  exact ⟨v, hv, by simpa using hvp⟩

lemma findUser_self_of_wf {us : List UserRec} (h : wfUsers us = true)
    {v : UserRec} (hv : v ∈ us) : findUser us v.uid = some v := by
  induction us with
  | nil => cases hv
  | cons u rest ih =>
    rw [findUser_cons]
    rcases List.mem_cons.mp hv with rfl | hv'
    · simp
    · have hne := wf_head_fresh h v hv'
      rw [if_neg (fun he => hne he.symm)]
      exact ih (wf_tail h) hv'

lemma parent_resolves {us : List UserRec} (h : wfUsers us = true)
    {v : UserRec} (hv : v ∈ us) {p : Nat} (hp : v.createdBy = some p) :
    (findUser us p).isSome := by
  induction us with
  | nil => cases hv
  | cons u rest ih =>
    rw [findUser_cons]
    by_cases hc : u.uid = p
    · simp [hc]
    · rw [if_neg hc]
      rcases List.mem_cons.mp hv with h1 | hv'
      · rcases wf_head_parent h (h1 ▸ hp) with ⟨w, hw, hwp⟩
        exact findUser_isSome_of_mem hw hwp
      · exact ih (wf_tail h) hv'

lemma head_uid_not_resolved {u : UserRec} {rest : List UserRec}
    (h : wfUsers (u :: rest) = true) {c : Nat} {v : UserRec}
    (hc : findUser rest c = some v) : ¬ u.uid = c := by
  intro he
  have hm := mem_of_findUser hc
  have := wf_head_fresh h v hm
  exact this (by rw [findUser_uid hc, he])

lemma parentIterN_cons_eq {u : UserRec} {rest : List UserRec}
    (h : wfUsers (u :: rest) = true) :
    ∀ (n : Nat) {c : Nat} {v : UserRec}, findUser rest c = some v →
      parentIterN (u :: rest) n c = parentIterN rest n c := by
  intro n
  induction n with
  | zero => intro c v _; rfl
  | succ m ih =>
    intro c v hc
    have hcne : ¬ u.uid = c := head_uid_not_resolved h hc
    have hstep : parentStep (u :: rest) c = parentStep rest c := by
      rw [parentStep, parentStep, findUser_cons, if_neg hcne]
    have hps : parentStep rest c = v.createdBy := by rw [parentStep, hc]
    rw [parentIterN, parentIterN, hstep, hps]
    cases hcb : v.createdBy with
    | none => rfl
    | some p =>
      have hres : (findUser rest p).isSome :=
        parent_resolves (wf_tail h) (mem_of_findUser hc) hcb
      rcases Option.isSome_iff_exists.mp hres with ⟨w, hw⟩
      exact ih hw

/-- In a well-formed store the parent chain from any id terminates. -/
lemma parent_chain_terminates {us : List UserRec} (h : wfUsers us = true) :
    ∀ c, ∃ n, parentIterN us n c = none := by
  induction us with
  | nil =>
    intro c
    exact ⟨1, by simp [parentIterN, parentStep, findUser]⟩
  | cons u rest ih =>
    intro c
    cases hfc : findUser (u :: rest) c with
    | none =>
      exact ⟨1, by simp [parentIterN, parentStep, hfc]⟩
    | some v =>
      rw [findUser_cons] at hfc
      by_cases hc : u.uid = c
      · rw [if_pos hc] at hfc
        injection hfc with hfc'
        subst hfc'
        cases hcb : u.createdBy with
        | none =>
          refine ⟨1, ?_⟩
          simp [parentIterN, parentStep, findUser_cons, hc, hcb]
        | some p =>
          rcases wf_head_parent h hcb with ⟨w, hw, hwp⟩
          have hps : (findUser rest p).isSome := findUser_isSome_of_mem hw hwp
          rcases Option.isSome_iff_exists.mp hps with ⟨w', hw'⟩
          rcases ih (wf_tail h) p with ⟨n, hn⟩
          refine ⟨n + 1, ?_⟩
          have hstep : parentStep (u :: rest) c = some p := by
            simp [parentStep, findUser_cons, hc, hcb]
          have hred : parentIterN (u :: rest) (n + 1) c = parentIterN (u :: rest) n p := by
            rw [parentIterN, hstep]
          rw [hred, parentIterN_cons_eq h n hw', hn]
      · rw [if_neg hc] at hfc
        rcases ih (wf_tail h) c with ⟨n, hn⟩
        refine ⟨n, ?_⟩
        cases n with
        | zero => simp [parentIterN] at hn
        | succ m => rw [parentIterN_cons_eq h (m + 1) hfc, hn]

lemma parentIterN_add (us : List UserRec) (m n : Nat) (c : Nat) :
    parentIterN us (m + n) c =
      match parentIterN us m c with
      | none => none
      | some x => parentIterN us n x := by
  induction m generalizing c with
  | zero => simp [parentIterN]
  | succ k ih =>
    have hm : k + 1 + n = (k + n) + 1 := by omega
    rw [hm, parentIterN, parentIterN]
    cases hs : parentStep us c with
    | none => rfl
    | some p => exact ih p

/-- A well-formed store has no `createdBy` cycles. -/
lemma no_cycle {us : List UserRec} (h : wfUsers us = true) (a : Nat) :
    ¬ reaches us a a := by
  rintro ⟨k, hk⟩
  rcases parent_chain_terminates h a with ⟨n, hn⟩
  have hmul : ∀ m, parentIterN us (m * (k + 1)) a = some a := by
    intro m
    induction m with
    | zero => simp [parentIterN]
    | succ j ih =>
      have hj : (j + 1) * (k + 1) = j * (k + 1) + (k + 1) := by ring
      rw [hj, parentIterN_add, ih]
      exact hk
  have hge : n ≤ (n + 1) * (k + 1) := by nlinarith
  have hsplit : (n + 1) * (k + 1) = n + ((n + 1) * (k + 1) - n) := by omega
  have hcontra := hmul (n + 1)
  rw [hsplit, parentIterN_add, hn] at hcontra
  simp at hcontra

lemma ne_of_reaches {us : List UserRec} (h : wfUsers us = true) {a c : Nat}
    (hr : reaches us a c) : ¬ a = c := by
  intro he
  exact no_cycle h a (he ▸ hr)

lemma parentStep_eq {us : List UserRec} {c : Nat} {cu : UserRec}
    (hfc : findUser us c = some cu) : parentStep us c = cu.createdBy := by
  rw [parentStep, hfc]

lemma parentStep_none {us : List UserRec} {c : Nat}
    (hfc : findUser us c = none) : parentStep us c = none := by
  rw [parentStep, hfc]

lemma parentIterN_succ_none {us : List UserRec} {n c : Nat}
    (hs : parentStep us c = none) : parentIterN us (n + 1) c = none := by
  rw [parentIterN, hs]

lemma parentIterN_succ_some {us : List UserRec} {n c p : Nat}
    (hs : parentStep us c = some p) :
    parentIterN us (n + 1) c = parentIterN us n p := by
  rw [parentIterN, hs]

lemma isInDownlineF_succ (us : List UserRec) (fuel a c : Nat) :
    isInDownlineF us (fuel + 1) a c =
      if a = c then false
      else
        match findUser us c with
        | none => false
        | some childUser =>
          match childUser.createdBy with
          | none => false
          | some cb => if cb = a then true else isInDownlineF us fuel a cb := rfl

lemma isInDownlineF_self (us : List UserRec) (fuel a : Nat) :
    isInDownlineF us (fuel + 1) a a = false := by
  rw [isInDownlineF_succ]
  simp

lemma isInDownlineF_no_user {us : List UserRec} {a c : Nat} (fuel : Nat)
    (hac : ¬ a = c) (hfc : findUser us c = none) :
    isInDownlineF us (fuel + 1) a c = false := by
  rw [isInDownlineF_succ]
  simp [hac, hfc]

lemma isInDownlineF_root {us : List UserRec} {a c : Nat} {cu : UserRec} (fuel : Nat)
    (hac : ¬ a = c) (hfc : findUser us c = some cu) (hcb : cu.createdBy = none) :
    isInDownlineF us (fuel + 1) a c = false := by
  rw [isInDownlineF_succ]
  simp [hac, hfc, hcb]

lemma isInDownlineF_hit {us : List UserRec} {a c : Nat} {cu : UserRec} (fuel : Nat)
    (hac : ¬ a = c) (hfc : findUser us c = some cu) (hcb : cu.createdBy = some a) :
    isInDownlineF us (fuel + 1) a c = true := by
  rw [isInDownlineF_succ]
  simp [hac, hfc, hcb]

lemma isInDownlineF_step {us : List UserRec} {a c cb : Nat} {cu : UserRec} (fuel : Nat)
    (hac : ¬ a = c) (hfc : findUser us c = some cu) (hcb : cu.createdBy = some cb)
    (hcba : ¬ cb = a) :
    isInDownlineF us (fuel + 1) a c = isInDownlineF us fuel a cb := by
  rw [isInDownlineF_succ]
  simp [hac, hfc, hcb, hcba]

lemma isInDownlineF_sound (us : List UserRec) :
    ∀ (fuel : Nat) {a c : Nat}, isInDownlineF us fuel a c = true →
      ∃ k, k + 1 ≤ fuel ∧ parentIterN us (k + 1) c = some a := by
  intro fuel
  induction fuel with
  | zero => intro a c hF; simp [isInDownlineF] at hF
  | succ f ih =>
    intro a c hF
    by_cases hac : a = c
    · rw [hac, isInDownlineF_self] at hF; cases hF
    cases hfc : findUser us c with
    | none => rw [isInDownlineF_no_user f hac hfc] at hF; cases hF
    | some cu =>
      cases hcb : cu.createdBy with
      | none => rw [isInDownlineF_root f hac hfc hcb] at hF; cases hF
      | some cb =>
        have hstep : parentStep us c = some cb := by
          rw [parentStep_eq hfc]; exact hcb
        by_cases hcba : cb = a
        · refine ⟨0, by omega, ?_⟩
          rw [parentIterN_succ_some hstep, hcba]
          rfl
        · rw [isInDownlineF_step f hac hfc hcb hcba] at hF
          rcases ih hF with ⟨k, hk, hiter⟩
          refine ⟨k + 1, by omega, ?_⟩
          rw [parentIterN_succ_some hstep]
          exact hiter

lemma isInDownlineF_complete {us : List UserRec} (h : wfUsers us = true) :
    ∀ (k : Nat) {a c : Nat}, parentIterN us (k + 1) c = some a →
      ∀ fuel, k + 1 ≤ fuel → isInDownlineF us fuel a c = true := by
  intro k
  induction k with
  | zero =>
    intro a c hiter fuel hfuel
    cases hstep : parentStep us c with
    | none => rw [parentIterN_succ_none hstep] at hiter; cases hiter
    | some p =>
      rw [parentIterN_succ_some hstep, parentIterN] at hiter
      injection hiter with hpa
      subst hpa
      have hac : ¬ p = c := ne_of_reaches h ⟨0, by rw [parentIterN_succ_some hstep]; rfl⟩
      cases hfc : findUser us c with
      | none => rw [parentStep_none hfc] at hstep; cases hstep
      | some cu =>
        have hcb : cu.createdBy = some p := by
          rw [← parentStep_eq hfc]; exact hstep
        cases fuel with
        | zero => omega
        | succ f => rw [isInDownlineF_hit f hac hfc hcb]
  | succ m ih =>
    intro a c hiter fuel hfuel
    cases hstep : parentStep us c with
    | none => rw [parentIterN_succ_none hstep] at hiter; cases hiter
    | some p =>
      rw [parentIterN_succ_some hstep] at hiter
      have hac : ¬ a = c := ne_of_reaches h ⟨m + 1, by rw [parentIterN_succ_some hstep]; exact hiter⟩
      cases hfc : findUser us c with
      | none => rw [parentStep_none hfc] at hstep; cases hstep
      | some cu =>
        have hcb : cu.createdBy = some p := by
          rw [← parentStep_eq hfc]; exact hstep
        cases fuel with
        | zero => omega
        | succ f =>
          by_cases hpa : p = a
          · exact isInDownlineF_hit f hac hfc (hpa ▸ hcb)
          · rw [isInDownlineF_step f hac hfc hcb hpa]
            exact ih hiter f (by omega)

lemma isInDownlineF_mono (us : List UserRec) :
    ∀ (fuel : Nat) {a c : Nat}, isInDownlineF us fuel a c = true →
      isInDownlineF us (fuel + 1) a c = true := by
  intro fuel
  induction fuel with
  | zero => intro a c hF; simp [isInDownlineF] at hF
  | succ f ih =>
    intro a c hF
    by_cases hac : a = c
    · rw [hac, isInDownlineF_self] at hF; cases hF
    cases hfc : findUser us c with
    | none => rw [isInDownlineF_no_user f hac hfc] at hF; cases hF
    | some cu =>
      cases hcb : cu.createdBy with
      | none => rw [isInDownlineF_root f hac hfc hcb] at hF; cases hF
      | some cb =>
        by_cases hcba : cb = a
        · exact isInDownlineF_hit (f + 1) hac hfc (hcba ▸ hcb)
        · rw [isInDownlineF_step f hac hfc hcb hcba] at hF
          rw [isInDownlineF_step (f + 1) hac hfc hcb hcba]
          exact ih hF

lemma isInDownlineF_mono_le (us : List UserRec) {fuel fuel' : Nat}
    (hle : fuel ≤ fuel') {a c : Nat} (hF : isInDownlineF us fuel a c = true) :
    isInDownlineF us fuel' a c = true := by
  induction fuel' with
  | zero =>
    have hz : fuel = 0 := by omega
    subst hz
    exact hF
  | succ f ih =>
    by_cases hf : fuel = f + 1
    · subst hf; exact hF
    · exact isInDownlineF_mono us f (ih (by omega))

lemma isInDownlineF_cons_eq {u : UserRec} {rest : List UserRec}
    (h : wfUsers (u :: rest) = true) :
    ∀ (fuel : Nat) {c : Nat} {v : UserRec}, findUser rest c = some v →
      ∀ a, isInDownlineF (u :: rest) fuel a c = isInDownlineF rest fuel a c := by
  intro fuel
  induction fuel with
  | zero => intro c v _ a; rfl
  | succ f ih =>
    intro c v hc a
    have hcne : ¬ u.uid = c := head_uid_not_resolved h hc
    have hcons : findUser (u :: rest) c = some v := by
      rw [findUser_cons, if_neg hcne]; exact hc
    by_cases hac : a = c
    · rw [hac, isInDownlineF_self, isInDownlineF_self]
    cases hcb : v.createdBy with
    | none => rw [isInDownlineF_root f hac hcons hcb, isInDownlineF_root f hac hc hcb]
    | some cb =>
      by_cases hcba : cb = a
      · rw [isInDownlineF_hit f hac hcons (hcba ▸ hcb), isInDownlineF_hit f hac hc (hcba ▸ hcb)]
      · rw [isInDownlineF_step f hac hcons hcb hcba, isInDownlineF_step f hac hc hcb hcba]
        have hres : (findUser rest cb).isSome :=
          parent_resolves (wf_tail h) (mem_of_findUser hc) hcb
        rcases Option.isSome_iff_exists.mp hres with ⟨w, hw⟩
        exact ih hw a

/-- The canonical fuel `us.length + 1` suffices: any id reachable up the
parent chain is recognised by `isInDownlineF`. -/
lemma isInDownlineF_of_reaches :
    ∀ (us : List UserRec), wfUsers us = true →
      ∀ {a c : Nat}, reaches us a c →
        isInDownlineF us (us.length + 1) a c = true := by
  intro us
  induction us with
  | nil =>
    intro _ a c hr
    rcases hr with ⟨k, hk⟩
    rw [parentIterN_succ_none (parentStep_none (findUser_nil c))] at hk
    cases hk
  | cons u rest ih =>
    intro h a c hr
    rcases hr with ⟨k, hk⟩
    cases hstep : parentStep (u :: rest) c with
    | none => rw [parentIterN_succ_none hstep] at hk; cases hk
    | some p =>
      have hk' : parentIterN (u :: rest) k p = some a := by
        rw [← parentIterN_succ_some hstep]; exact hk
      have hac : ¬ a = c := ne_of_reaches h ⟨k, hk⟩
      cases hfc : findUser (u :: rest) c with
      | none => rw [parentStep_none hfc] at hstep; cases hstep
      | some cu =>
        have hcb : cu.createdBy = some p := by
          rw [← parentStep_eq hfc]; exact hstep
        have hfc' := hfc
        rw [findUser_cons] at hfc'
        by_cases hc : u.uid = c
        · -- the chain starts at the head record and immediately drops into the tail
          rw [if_pos hc] at hfc'
          injection hfc' with he
          subst he
          rcases wf_head_parent h hcb with ⟨w, hw, hwp⟩
          have hps : (findUser rest p).isSome := findUser_isSome_of_mem hw hwp
          rcases Option.isSome_iff_exists.mp hps with ⟨w', hw'⟩
          by_cases hpa : p = a
          · exact isInDownlineF_hit _ hac hfc (hpa ▸ hcb)
          · cases k with
            | zero =>
              rw [parentIterN] at hk'
              injection hk' with hk''
              exact absurd hk'' hpa
            | succ m =>
              have hrp : reaches rest a p := by
                refine ⟨m, ?_⟩
                rw [← parentIterN_cons_eq h (m + 1) hw']
                exact hk'
              have htail := ih (wf_tail h) hrp
              have hcv : isInDownlineF (u :: rest) (rest.length + 1) a p = true := by
                rw [isInDownlineF_cons_eq h (rest.length + 1) hw' a]
                exact htail
              have hlen : (u :: rest).length + 1 = (rest.length + 1) + 1 := by simp
              rw [hlen, isInDownlineF_step (rest.length + 1) hac hfc hcb hpa]
              exact hcv
        · rw [if_neg hc] at hfc'
          have hrr : reaches rest a c := by
            refine ⟨k, ?_⟩
            rw [← parentIterN_cons_eq h (k + 1) hfc']
            exact hk
          have htail := ih (wf_tail h) hrr
          have hcons : isInDownlineF (u :: rest) (rest.length + 1) a c = true := by
            rw [isInDownlineF_cons_eq h (rest.length + 1) hfc' a]
            exact htail
          exact isInDownlineF_mono_le (u :: rest) (by simp) hcons

lemma isInDownline_of_reaches {us : List UserRec} (h : wfUsers us = true)
    {a c : Nat} (hr : reaches us a c) : isInDownline us a c = true := by
  rw [isInDownline]
  exact isInDownlineF_of_reaches us h hr

/-- Any realised parent chain can be shortened to one of length at most
`us.length + 1`. -/
lemma bounded_chain {us : List UserRec} (h : wfUsers us = true) {a c : Nat} {k : Nat}
    (hk : parentIterN us (k + 1) c = some a) :
    ∃ k', k' + 1 ≤ us.length + 1 ∧ parentIterN us (k' + 1) c = some a := by
  have hd := isInDownline_of_reaches h ⟨k, hk⟩
  rw [isInDownline] at hd
  rcases isInDownlineF_sound us (us.length + 1) hd with ⟨k', hk', hiter⟩
  exact ⟨k', hk', hiter⟩

/-- In a well-formed store `isInDownline` decides reachability along the
parent chain. -/
lemma isInDownline_iff_reaches {us : List UserRec} (h : wfUsers us = true)
    (a c : Nat) : isInDownline us a c = true ↔ reaches us a c := by
  constructor
  · intro hF
    rcases isInDownlineF_sound us (us.length + 1) hF with ⟨k, _, hiter⟩
    exact ⟨k, hiter⟩
  · exact isInDownline_of_reaches h

lemma mem_childrenOf {us : List UserRec} {i : Nat} {v : UserRec} :
    v ∈ childrenOf us i ↔ v ∈ us ∧ v.createdBy = some i := by
  simp [childrenOf]

lemma childrenOf_of_missing {us : List UserRec} (h : wfUsers us = true) {c : Nat}
    (hfc : findUser us c = none) : childrenOf us c = [] := by
  rw [childrenOf, List.filter_eq_nil_iff]
  intro v hv hvc
  have hcb : v.createdBy = some c := by simpa using hvc
  have hs := parent_resolves h hv hcb
  rw [hfc] at hs
  cases hs

lemma getDownlineF_succ (us : List UserRec) (fuel userId : Nat) (includeSelf : Bool) :
    getDownlineF us (fuel + 1) userId includeSelf =
      (if includeSelf then [findUser us userId] else []) ++
        (childrenOf us userId).map some ++
        ((childrenOf us userId).map (fun c => getDownlineF us fuel c.uid false)).flatten := rfl

lemma mem_getDownlineF_succ_false {us : List UserRec} {fuel c : Nat} {x : Option UserRec} :
    x ∈ getDownlineF us (fuel + 1) c false ↔
      x ∈ (childrenOf us c).map some ∨
        ∃ child ∈ childrenOf us c, x ∈ getDownlineF us fuel child.uid false := by
  rw [getDownlineF_succ]
  simp only [Bool.false_eq_true, if_false, List.nil_append, List.mem_append, List.mem_flatten,
    List.mem_map]
  constructor
  · rintro (hx | ⟨l, ⟨child, hchild, rfl⟩, hxl⟩)
    · exact Or.inl hx
    · exact Or.inr ⟨child, hchild, hxl⟩
  · rintro (hx | ⟨child, hchild, hxl⟩)
    · exact Or.inl hx
    · exact Or.inr ⟨getDownlineF us fuel child.uid false, ⟨child, hchild, rfl⟩, hxl⟩

lemma none_not_mem_getDownlineF (us : List UserRec) :
    ∀ (fuel c : Nat), none ∉ getDownlineF us fuel c false := by
  intro fuel
  induction fuel with
  | zero => intro c h; simp [getDownlineF] at h
  | succ f ih =>
    intro c h
    rcases mem_getDownlineF_succ_false.mp h with h1 | ⟨child, _, h2⟩
    · rcases List.mem_map.mp h1 with ⟨w, _, hw⟩
      cases hw
    · exact ih child.uid h2

lemma getDownlineF_sound {us : List UserRec} (h : wfUsers us = true) :
    ∀ (fuel : Nat) {c : Nat} {v : UserRec},
      some v ∈ getDownlineF us fuel c false → v ∈ us ∧ reaches us c v.uid := by
  intro fuel
  induction fuel with
  | zero => intro c v hm; simp [getDownlineF] at hm
  | succ f ih =>
    intro c v hm
    rcases mem_getDownlineF_succ_false.mp hm with h1 | ⟨child, hchild, h2⟩
    · rcases List.mem_map.mp h1 with ⟨w, hw, hwv⟩
      have hwv' : v = w := by injection hwv with he; exact he.symm
      subst hwv'
      rcases mem_childrenOf.mp hw with ⟨hmem, hcb⟩
      refine ⟨hmem, 0, ?_⟩
      have hfv : findUser us v.uid = some v := findUser_self_of_wf h hmem
      rw [parentIterN_succ_some (by rw [parentStep_eq hfv]; exact hcb)]
      rfl
    · rcases ih h2 with ⟨hmem, k, hk⟩
      rcases mem_childrenOf.mp hchild with ⟨hcmem, hccb⟩
      have hfc : findUser us child.uid = some child := findUser_self_of_wf h hcmem
      have h1 : parentIterN us 1 child.uid = some c := by
        rw [parentIterN_succ_some (by rw [parentStep_eq hfc]; exact hccb)]
        rfl
      have hcomp : parentIterN us (k + 1 + 1) v.uid = parentIterN us 1 child.uid := by
        rw [parentIterN_add us (k + 1) 1 v.uid, hk]
      exact ⟨hmem, k + 1, by rw [hcomp]; exact h1⟩

lemma getDownlineF_complete {us : List UserRec} (h : wfUsers us = true) :
    ∀ (k : Nat) {c : Nat} {v : UserRec}, v ∈ us →
      parentIterN us (k + 1) v.uid = some c →
      ∀ fuel, k + 1 ≤ fuel → some v ∈ getDownlineF us fuel c false := by
  intro k
  induction k with
  | zero =>
    intro c v hv hiter fuel hfuel
    have hfv : findUser us v.uid = some v := findUser_self_of_wf h hv
    cases hstep : parentStep us v.uid with
    | none => rw [parentIterN_succ_none hstep] at hiter; cases hiter
    | some p =>
      rw [parentIterN_succ_some hstep, parentIterN] at hiter
      injection hiter with hpc
      subst hpc
      have hcb : v.createdBy = some p := by
        rw [← parentStep_eq hfv]; exact hstep
      cases fuel with
      | zero => omega
      | succ f =>
        exact mem_getDownlineF_succ_false.mpr
          (Or.inl (List.mem_map_of_mem some (mem_childrenOf.mpr ⟨hv, hcb⟩)))
  | succ m ih =>
    intro c v hv hiter fuel hfuel
    cases hy : parentIterN us (m + 1) v.uid with
    | none =>
      rw [parentIterN_add us (m + 1) 1 v.uid, hy] at hiter
      cases hiter
    | some y =>
      have hiter1 : parentIterN us 1 y = some c := by
        rw [parentIterN_add us (m + 1) 1 v.uid, hy] at hiter
        exact hiter
      cases hstep : parentStep us y with
      | none => rw [parentIterN_succ_none hstep] at hiter1; cases hiter1
      | some q =>
        rw [parentIterN_succ_some hstep, parentIterN] at hiter1
        injection hiter1 with hqc
        subst hqc
        cases hfy : findUser us y with
        | none => rw [parentStep_none hfy] at hstep; cases hstep
        | some w =>
          have hwcb : w.createdBy = some q := by
            rw [← parentStep_eq hfy]; exact hstep
          have hwuid : w.uid = y := findUser_uid hfy
          have hwmem : w ∈ us := mem_of_findUser hfy
          cases fuel with
          | zero => omega
          | succ f =>
            have hrec : some v ∈ getDownlineF us f w.uid false :=
              ih hv (by rw [hwuid]; exact hy) f (by omega)
            exact mem_getDownlineF_succ_false.mpr
              (Or.inr ⟨w, mem_childrenOf.mpr ⟨hwmem, hwcb⟩, hrec⟩)

/-- In a well-formed store, membership in `getDownline us c false` is
exactly strict descent from `c`. -/
lemma mem_getDownline_iff {us : List UserRec} (h : wfUsers us = true) (c : Nat)
    (v : UserRec) :
    some v ∈ getDownline us c false ↔ v ∈ us ∧ reaches us c v.uid := by
  rw [getDownline]
  constructor
  · exact getDownlineF_sound h (us.length + 1)
  · rintro ⟨hv, k, hk⟩
    rcases bounded_chain h hk with ⟨k', hk', hiter⟩
    exact getDownlineF_complete h k' hv hiter (us.length + 1) hk'

/-- Example data: a root super_admin. -/
def rootSA : UserRec :=
  { uid := 1, username := "root", role := "super_admin", balance := 10, createdBy := none }

/-- Example data: an admin created by the root. -/
def adminChild : UserRec :=
  { uid := 2, username := "ad", role := "admin", balance := 3, createdBy := some 1 }

/-- Example data: a plain user created by the root. -/
def userChild : UserRec :=
  { uid := 3, username := "bob", role := "user", balance := 0, createdBy := some 1 }

/-- Example snapshot: root with an admin child (newest first). -/
def stA : St := { users := [adminChild, rootSA], txns := [] }

/-- Example snapshot: root with a plain-user child (newest first). -/
def stB : St := { users := [userChild, rootSA], txns := [] }

/-- A stand-in for the mongoose `User.canManage` method in witnesses. -/
def cmAll : UserRec → UserRec → Bool := fun _ _ => true

/-- Success test for route results. -/
def isOkResult {ε α : Type} : Except ε α → Bool
  | .ok _ => true
  | .error _ => false

/-- The `deductedFrom` field of a successful add-balance response. -/
def deductedFromOf : Except BalanceError AddBalanceOk → Option (Option (Nat × String × Rat × Rat))
  | .ok r => some r.deductedFrom
  | .error _ => none

/-- Shorthand for the transaction records the balance handlers build. -/
def mkTxn (uid : Nat) (ty : String) (a prev newB : Rat) (desc : String) (actor : Nat) : Txn :=
  { userId := uid, type := ty, amount := a, previousBalance := prev,
    newBalance := newB, description := desc, performedBy := actor }

lemma getParent_eq {s : St} {uid pid : Nat} {target parent : UserRec}
    (hT : findUser s.users uid = some target)
    (hPar : target.createdBy = some pid)
    (hP : findUser s.users pid = some parent) :
    getParent s.users uid = some parent := by
  simp only [getParent, hT, hPar]
  exact hP

lemma getParent_none_of_root {s : St} {uid : Nat} {target : UserRec}
    (hT : findUser s.users uid = some target)
    (hPar : target.createdBy = none) :
    getParent s.users uid = none := by
  simp only [getParent, hT, hPar]

/-- Success shape of POST /balance/add for a self-recharge: the actor is
credited, nothing is debited, and no `deductedFrom` is reported. -/
lemma addBalanceRoute_self_ok
    {s : St} {sid : Nat} {a : Rat} {d : Option String} {sender : UserRec}
    (hS : findUser s.users sid = some sender)
    (hrole : sender.role = "admin" ∨ sender.role = "super_admin")
    (hA : 0 < a)
    (hD : validDescription d = true)
    (hsvC : txnSaveOk (mkTxn sid "credit" a sender.balance (sender.balance + a)
      (descOrDefault d ("Transfer from " ++ sender.username)) sid) = true) :
    addBalanceRoute s sid sid a d = .ok
      { newState := { users := setBalance s.users sid (sender.balance + a),
                      txns := s.txns ++
                        [mkTxn sid "credit" a sender.balance (sender.balance + a)
                          (descOrDefault d ("Transfer from " ++ sender.username)) sid] },
        transaction := mkTxn sid "credit" a sender.balance (sender.balance + a)
          (descOrDefault d ("Transfer from " ++ sender.username)) sid,
        newBalance := sender.balance + a,
        deductedFrom := none } := by
  simp only [addBalanceRoute, hS, addBalance, mkTxn]
  rw [if_neg (not_not_intro hrole), if_neg (not_not_intro hA),
    if_neg (by rw [hD]; exact fun hc => Bool.noConfusion hc)]
  rw [mkTxn] at hsvC
  simp [hsvC]

/-- Success shape of POST /balance/add for a non-self credit whose subject
has a resolvable parent distinct from the subject: the parent pays.  The
`deductedFrom` component reproduces the stale-document read of the source:
it reports `parent.balance + a` and `parent.balance` (the pre-debit
snapshot), not the pre/post balances of the debit. -/
lemma addBalanceRoute_parent_ok
    {s : St} {sid uid pid : Nat} {a : Rat} {d : Option String}
    {sender target parent : UserRec}
    (hS : findUser s.users sid = some sender)
    (hrole : sender.role = "admin" ∨ sender.role = "super_admin")
    (hA : 0 < a)
    (hD : validDescription d = true)
    (hns : ¬ sid = uid)
    (hT : findUser s.users uid = some target)
    (hPar : target.createdBy = some pid)
    (hP : findUser s.users pid = some parent)
    (hpne : ¬ pid = uid)
    (hge : ¬ parent.balance < a)
    (hsvD : txnSaveOk (mkTxn pid "debit" a parent.balance (parent.balance - a)
      (descOrDefault d ("Transfer to " ++ target.username)) sid) = true)
    (hsvC : txnSaveOk (mkTxn uid "credit" a target.balance (target.balance + a)
      (descOrDefault d
        (if pid = sid then "Transfer from " ++ parent.username else "Credit from admin"))
      sid) = true) :
    addBalanceRoute s sid uid a d = .ok
      { newState :=
          { users := setBalance (setBalance s.users pid (parent.balance - a)) uid
              (target.balance + a),
            txns := s.txns ++
              [mkTxn pid "debit" a parent.balance (parent.balance - a)
                 (descOrDefault d ("Transfer to " ++ target.username)) sid,
               mkTxn uid "credit" a target.balance (target.balance + a)
                 (descOrDefault d
                   (if pid = sid then "Transfer from " ++ parent.username
                    else "Credit from admin")) sid] },
        transaction := mkTxn uid "credit" a target.balance (target.balance + a)
          (descOrDefault d
            (if pid = sid then "Transfer from " ++ parent.username else "Credit from admin"))
          sid,
        newBalance := target.balance + a,
        deductedFrom := some (pid, parent.username, parent.balance + a, parent.balance) } := by
  have hpuid : parent.uid = pid := findUser_uid hP
  have hgp : getParent s.users uid = some parent := getParent_eq hT hPar hP
  simp only [addBalanceRoute, hS, addBalance, hT, hgp, mkTxn]
  rw [if_neg (not_not_intro hrole), if_neg (not_not_intro hA),
    if_neg (by rw [hD]; exact fun hc => Bool.noConfusion hc)]
  rw [if_neg (fun hc => hc.2.2 hrole)]
  rw [mkTxn] at hsvD hsvC
  simp [hns, hpne, hpuid, hP, hge, hsvD, hsvC, List.append_assoc]

/-- Insufficient-parent shape of POST /balance/add: when the resolved
payer (the parent) cannot cover the amount the route aborts with the
insufficient-balance error. -/
lemma addBalanceRoute_parent_insufficient
    {s : St} {sid uid pid : Nat} {a : Rat} {d : Option String}
    {sender target parent : UserRec}
    (hS : findUser s.users sid = some sender)
    (hrole : sender.role = "admin" ∨ sender.role = "super_admin")
    (hA : 0 < a)
    (hD : validDescription d = true)
    (hns : ¬ sid = uid)
    (hT : findUser s.users uid = some target)
    (hPar : target.createdBy = some pid)
    (hP : findUser s.users pid = some parent)
    (hlow : parent.balance < a) :
    addBalanceRoute s sid uid a d = .error .insufficient := by
  have hpuid : parent.uid = pid := findUser_uid hP
  have hgp : getParent s.users uid = some parent := getParent_eq hT hPar hP
  simp only [addBalanceRoute, hS, addBalance, hT, hgp]
  rw [if_neg (not_not_intro hrole), if_neg (not_not_intro hA),
    if_neg (by rw [hD]; exact fun hc => Bool.noConfusion hc)]
  rw [if_neg (fun hc => hc.2.2 hrole)]
  simp [hns, hpuid, hP, hlow]

/-- Success shape of POST /balance/add for a non-self credit of a root
subject (no parent): the actor pays. -/
lemma addBalanceRoute_root_ok
    {s : St} {sid uid : Nat} {a : Rat} {d : Option String}
    {sender target : UserRec}
    (hS : findUser s.users sid = some sender)
    (hrole : sender.role = "admin" ∨ sender.role = "super_admin")
    (hA : 0 < a)
    (hD : validDescription d = true)
    (hns : ¬ sid = uid)
    (hT : findUser s.users uid = some target)
    (hPar : target.createdBy = none)
    (hge : ¬ sender.balance < a)
    (hsvD : txnSaveOk (mkTxn sid "debit" a sender.balance (sender.balance - a)
      (descOrDefault d ("Transfer to " ++ target.username)) sid) = true)
    (hsvC : txnSaveOk (mkTxn uid "credit" a target.balance (target.balance + a)
      (descOrDefault d ("Transfer from " ++ sender.username)) sid) = true) :
    addBalanceRoute s sid uid a d = .ok
      { newState :=
          { users := setBalance (setBalance s.users sid (sender.balance - a)) uid
              (target.balance + a),
            txns := s.txns ++
              [mkTxn sid "debit" a sender.balance (sender.balance - a)
                 (descOrDefault d ("Transfer to " ++ target.username)) sid,
               mkTxn uid "credit" a target.balance (target.balance + a)
                 (descOrDefault d ("Transfer from " ++ sender.username)) sid] },
        transaction := mkTxn uid "credit" a target.balance (target.balance + a)
          (descOrDefault d ("Transfer from " ++ sender.username)) sid,
        newBalance := target.balance + a,
        deductedFrom := some (sid, sender.username, sender.balance + a, sender.balance) } := by
  have hgp : getParent s.users uid = none := getParent_none_of_root hT hPar
  simp only [addBalanceRoute, hS, addBalance, hT, hgp, mkTxn]
  rw [if_neg (not_not_intro hrole), if_neg (not_not_intro hA),
    if_neg (by rw [hD]; exact fun hc => Bool.noConfusion hc)]
  rw [if_neg (fun hc => hc.2.2 hrole)]
  rw [mkTxn] at hsvD hsvC
  simp [hns, hge, hsvD, hsvC, List.append_assoc]

/-- Success shape of POST /balance/deduct. -/
lemma deductBalanceRoute_ok
    {cm : UserRec → UserRec → Bool} {s : St} {aid uid : Nat} {a : Rat}
    {d : Option String} {actor target : UserRec}
    (hS : findUser s.users aid = some actor)
    (hrole : actor.role = "admin" ∨ actor.role = "super_admin")
    (hA : 0 < a)
    (hD : validDescription d = true)
    (hT : findUser s.users uid = some target)
    (hcm : cm actor target = true ∨ aid = uid)
    (hge : ¬ target.balance < a)
    (hsv : txnSaveOk (mkTxn uid "debit" a target.balance (target.balance - a)
      (descValue d) aid) = true) :
    deductBalanceRoute cm s aid uid a d = .ok
      { newState := { users := setBalance s.users uid (target.balance - a),
                      txns := s.txns ++
                        [mkTxn uid "debit" a target.balance (target.balance - a)
                          (descValue d) aid] },
        transaction := mkTxn uid "debit" a target.balance (target.balance - a)
          (descValue d) aid,
        newBalance := target.balance - a } := by
  simp only [deductBalanceRoute, hS, deductBalance, hT, mkTxn]
  rw [if_neg (not_not_intro hrole), if_neg (not_not_intro hA),
    if_neg (by rw [hD]; exact fun hc => Bool.noConfusion hc)]
  rw [if_neg (fun hc => by
    rcases hcm with h | h
    · rw [h] at hc; exact Bool.noConfusion hc.1
    · exact hc.2 h)]
  rw [mkTxn] at hsv
  simp [hge, hsv]

/-- Insufficient-subject shape of POST /balance/deduct. -/
lemma deductBalanceRoute_insufficient
    {cm : UserRec → UserRec → Bool} {s : St} {aid uid : Nat} {a : Rat}
    {d : Option String} {actor target : UserRec}
    (hS : findUser s.users aid = some actor)
    (hrole : actor.role = "admin" ∨ actor.role = "super_admin")
    (hA : 0 < a)
    (hD : validDescription d = true)
    (hT : findUser s.users uid = some target)
    (hcm : cm actor target = true ∨ aid = uid)
    (hlow : target.balance < a) :
    deductBalanceRoute cm s aid uid a d = .error .insufficient := by
  simp only [deductBalanceRoute, hS, deductBalance, hT]
  rw [if_neg (not_not_intro hrole), if_neg (not_not_intro hA),
    if_neg (by rw [hD]; exact fun hc => Bool.noConfusion hc)]
  rw [if_neg (fun hc => by
    rcases hcm with h | h
    · rw [h] at hc; exact Bool.noConfusion hc.1
    · exact hc.2 h)]
  rw [if_pos hlow]

lemma getParent_some_findUser {us : List UserRec} {uid : Nat} {parent : UserRec}
    (h : getParent us uid = some parent) : findUser us parent.uid = some parent := by
  rw [getParent] at h
  cases hu : findUser us uid with
  | none => rw [hu] at h; cases h
  | some u =>
    simp only [hu] at h
    cases hcb : u.createdBy with
    | none => simp only [hcb] at h; cases h
    | some p =>
      simp only [hcb] at h
      rw [findUser_uid h]
      exact h

/-- Inversion of a successful POST /balance/deduct: the response and the
committed state are fully determined by the subject record. -/
lemma deductBalanceRoute_ok_shape {cm : UserRec → UserRec → Bool} {s : St}
    {aid uid : Nat} {a : Rat} {d : Option String} {r : DeductBalanceOk}
    (hOk : deductBalanceRoute cm s aid uid a d = .ok r) :
    ∃ target, findUser s.users uid = some target ∧ ¬ target.balance < a ∧
      r.newState.users = setBalance s.users uid (target.balance - a) ∧
      r.newState.txns = s.txns ++
        [mkTxn uid "debit" a target.balance (target.balance - a) (descValue d) aid] ∧
      r.transaction =
        mkTxn uid "debit" a target.balance (target.balance - a) (descValue d) aid ∧
      r.newBalance = target.balance - a := by
  rw [deductBalanceRoute] at hOk
  cases hS : findUser s.users aid with
  | none => rw [hS] at hOk; exact Except.noConfusion hOk
  | some actor =>
    simp only [hS] at hOk
    split at hOk
    · exact Except.noConfusion hOk
    split at hOk
    · exact Except.noConfusion hOk
    split at hOk
    · exact Except.noConfusion hOk
    rw [deductBalance] at hOk
    simp only [hS] at hOk
    cases hT : findUser s.users uid with
    | none => simp only [hT] at hOk; exact Except.noConfusion hOk
    | some target =>
      simp only [hT] at hOk
      split at hOk
      · exact Except.noConfusion hOk
      split at hOk
      · exact Except.noConfusion hOk
      split at hOk
      · exact Except.noConfusion hOk
      rename_i hlow hsave
      injection hOk with hr
      subst hr
      exact ⟨target, rfl, hlow, rfl, rfl, rfl, rfl⟩

/-- Any committed deduct keeps all balances non-negative. -/
lemma NonNeg_deductRoute_ok {cm : UserRec → UserRec → Bool} {s : St}
    {aid uid : Nat} {a : Rat} {d : Option String} {r : DeductBalanceOk}
    (hN : NonNeg s.users)
    (hOk : deductBalanceRoute cm s aid uid a d = .ok r) :
    NonNeg r.newState.users := by
  rcases deductBalanceRoute_ok_shape hOk with ⟨target, hT, hlow, husers, -, -, -⟩
  rw [husers]
  exact NonNeg_setBalance uid hN (by linarith [not_lt.mp hlow])

/-- Inversion of a successful POST /balance/add on a non-self subject with
a resolvable parent distinct from the subject: the parent was charged and
the committed state is fully determined. -/
lemma addBalanceRoute_ok_parent_shape {s : St} {sid uid pid : Nat} {a : Rat}
    {d : Option String} {r : AddBalanceOk} {target parent : UserRec}
    (hT : findUser s.users uid = some target)
    (hPar : target.createdBy = some pid)
    (hP : findUser s.users pid = some parent)
    (hpne : ¬ pid = uid)
    (hns : ¬ sid = uid)
    (hOk : addBalanceRoute s sid uid a d = .ok r) :
    ¬ parent.balance < a ∧
    r.newState.users = setBalance (setBalance s.users pid (parent.balance - a)) uid
      (target.balance + a) ∧
    r.newState.txns = s.txns ++
      [mkTxn pid "debit" a parent.balance (parent.balance - a)
         (descOrDefault d ("Transfer to " ++ target.username)) sid,
       mkTxn uid "credit" a target.balance (target.balance + a)
         (descOrDefault d
           (if pid = sid then "Transfer from " ++ parent.username else "Credit from admin"))
         sid] ∧
    r.newBalance = target.balance + a ∧
    r.deductedFrom = some (pid, parent.username, parent.balance + a, parent.balance) := by
  have hpuid : parent.uid = pid := findUser_uid hP
  have hgp : getParent s.users uid = some parent := getParent_eq hT hPar hP
  rw [addBalanceRoute] at hOk
  cases hS : findUser s.users sid with
  | none => rw [hS] at hOk; exact Except.noConfusion hOk
  | some sender =>
    simp only [hS] at hOk
    split at hOk
    · exact Except.noConfusion hOk
    split at hOk
    · exact Except.noConfusion hOk
    split at hOk
    · exact Except.noConfusion hOk
    rw [addBalance] at hOk
    simp only [hS, hT, hgp, hpuid, hP, if_neg hns, mkTxn] at hOk
    by_cases hps : pid = sid
    · simp only [if_pos hps] at hOk ⊢
      split at hOk
      · exact Except.noConfusion hOk
      split at hOk
      · exact Except.noConfusion hOk
      rename_i hsuff
      split at hOk
      · exact Except.noConfusion hOk
      split at hOk
      · exact Except.noConfusion hOk
      injection hOk with hr
      subst hr
      refine ⟨fun hlow => hsuff ⟨hns, hlow⟩, ?_, ?_, rfl, ?_⟩
      · show setBalance (if ¬ sid = uid ∧ ¬ pid = uid then _ else s.users) uid _ = _
        rw [if_pos ⟨hns, hpne⟩]
      · show ((if ¬ sid = uid ∧ ¬ pid = uid then _ else s.txns) ++ _ : List Txn) = _
        rw [if_pos ⟨hns, hpne⟩, mkTxn, mkTxn]
        simp [List.append_assoc]
      · rfl
    · simp only [if_neg hps] at hOk ⊢
      split at hOk
      · exact Except.noConfusion hOk
      split at hOk
      · exact Except.noConfusion hOk
      rename_i hsuff
      split at hOk
      · exact Except.noConfusion hOk
      split at hOk
      · exact Except.noConfusion hOk
      injection hOk with hr
      subst hr
      refine ⟨fun hlow => hsuff ⟨hns, hlow⟩, ?_, ?_, rfl, ?_⟩
      · show setBalance (if ¬ sid = uid ∧ ¬ pid = uid then _ else s.users) uid _ = _
        rw [if_pos ⟨hns, hpne⟩]
      · show ((if ¬ sid = uid ∧ ¬ pid = uid then _ else s.txns) ++ _ : List Txn) = _
        rw [if_pos ⟨hns, hpne⟩, mkTxn, mkTxn]
        simp [List.append_assoc]
      · rfl

/-- Inversion of a successful POST /balance/add on a non-self root subject
(no parent): the authenticated actor was charged. -/
lemma addBalanceRoute_ok_root_shape {s : St} {sid uid : Nat} {a : Rat}
    {d : Option String} {r : AddBalanceOk} {sender target : UserRec}
    (hS : findUser s.users sid = some sender)
    (hT : findUser s.users uid = some target)
    (hgp : getParent s.users uid = none)
    (hns : ¬ sid = uid)
    (hOk : addBalanceRoute s sid uid a d = .ok r) :
    ¬ sender.balance < a ∧
    r.newState.users = setBalance (setBalance s.users sid (sender.balance - a)) uid
      (target.balance + a) ∧
    r.newState.txns = s.txns ++
      [mkTxn sid "debit" a sender.balance (sender.balance - a)
         (descOrDefault d ("Transfer to " ++ target.username)) sid,
       mkTxn uid "credit" a target.balance (target.balance + a)
         (descOrDefault d ("Transfer from " ++ sender.username)) sid] ∧
    r.newBalance = target.balance + a ∧
    r.deductedFrom = some (sid, sender.username, sender.balance + a, sender.balance) := by
  rw [addBalanceRoute] at hOk
  simp only [hS] at hOk
  split at hOk
  · exact Except.noConfusion hOk
  split at hOk
  · exact Except.noConfusion hOk
  split at hOk
  · exact Except.noConfusion hOk
  rw [addBalance] at hOk
  simp only [hS, hT, hgp, if_neg hns, eq_self_iff_true, ite_true, mkTxn] at hOk
  split at hOk
  · exact Except.noConfusion hOk
  split at hOk
  · exact Except.noConfusion hOk
  rename_i hsuff
  split at hOk
  · exact Except.noConfusion hOk
  split at hOk
  · exact Except.noConfusion hOk
  injection hOk with hr
  subst hr
  refine ⟨fun hlow => hsuff ⟨hns, hlow⟩, ?_, ?_, rfl, ?_⟩
  · show setBalance (if ¬ sid = uid ∧ ¬ sid = uid then _ else s.users) uid _ = _
    rw [if_pos ⟨hns, hns⟩]
  · show ((if ¬ sid = uid ∧ ¬ sid = uid then _ else s.txns) ++ _ : List Txn) = _
    rw [if_pos ⟨hns, hns⟩, mkTxn, mkTxn]
    simp [List.append_assoc]
  · rfl

lemma getParent_inv {us : List UserRec} {uid : Nat} {parent : UserRec}
    (h : getParent us uid = some parent) :
    ∃ target, findUser us uid = some target ∧ target.createdBy = some parent.uid ∧
      findUser us parent.uid = some parent := by
  rw [getParent] at h
  cases hu : findUser us uid with
  | none => rw [hu] at h; cases h
  | some u =>
    simp only [hu] at h
    cases hcb : u.createdBy with
    | none => simp only [hcb] at h; cases h
    | some p =>
      simp only [hcb] at h
      have hpu : parent.uid = p := findUser_uid h
      exact ⟨u, rfl, by rw [hpu]; exact hcb, by rw [hpu]; exact h⟩

/-- A successful POST /balance/add presupposes that the subject resolved. -/
lemma addBalanceRoute_ok_subject {s : St} {sid uid : Nat} {a : Rat}
    {d : Option String} {r : AddBalanceOk}
    (hOk : addBalanceRoute s sid uid a d = .ok r) :
    ∃ target, findUser s.users uid = some target := by
  rw [addBalanceRoute] at hOk
  cases hS : findUser s.users sid with
  | none => rw [hS] at hOk; exact Except.noConfusion hOk
  | some sender =>
    simp only [hS] at hOk
    split at hOk
    · exact Except.noConfusion hOk
    split at hOk
    · exact Except.noConfusion hOk
    split at hOk
    · exact Except.noConfusion hOk
    rw [addBalance] at hOk
    simp only [hS] at hOk
    cases hT : findUser s.users uid with
    | none => simp only [hT] at hOk; exact Except.noConfusion hOk
    | some target => exact ⟨target, rfl⟩

/-- Insufficient-actor shape of POST /balance/add on a non-self subject
without a resolvable parent: the actor is the payer and cannot cover the
amount, so the route aborts with the insufficient-balance error. -/
lemma addBalanceRoute_root_insufficient
    {s : St} {sid uid : Nat} {a : Rat} {d : Option String}
    {sender target : UserRec}
    (hS : findUser s.users sid = some sender)
    (hrole : sender.role = "admin" ∨ sender.role = "super_admin")
    (hA : 0 < a)
    (hD : validDescription d = true)
    (hns : ¬ sid = uid)
    (hT : findUser s.users uid = some target)
    (hgp : getParent s.users uid = none)
    (hlow : sender.balance < a) :
    addBalanceRoute s sid uid a d = .error .insufficient := by
  simp only [addBalanceRoute, hS, addBalance, hT, hgp]
  rw [if_neg (not_not_intro hrole), if_neg (not_not_intro hA),
    if_neg (by rw [hD]; exact fun hc => Bool.noConfusion hc)]
  rw [if_neg (fun hc => hc.2.2 hrole)]
  simp [hns, hlow]

/-- The payer id the POST /balance/add handler selects (balance.js lines
62-101): the actor on a self-recharge, otherwise the subject's parent when
`getParent` resolves one, otherwise the actor. -/
def payerIdFor (us : List UserRec) (sid uid : Nat) : Nat :=
  if sid = uid then sid
  else
    match getParent us uid with
    | some parent => parent.uid
    | none => sid

/-- Any committed credit keeps all balances non-negative: the only debited
write is guarded by the payer sufficiency check and the credited write
adds a validated positive amount to a non-negative balance. -/
lemma NonNeg_addRoute_ok {s : St} {sid uid : Nat} {a : Rat} {d : Option String}
    {r : AddBalanceOk}
    (hN : NonNeg s.users)
    (hOk : addBalanceRoute s sid uid a d = .ok r) :
    NonNeg r.newState.users := by
  rw [addBalanceRoute] at hOk
  cases hS : findUser s.users sid with
  | none => rw [hS] at hOk; exact Except.noConfusion hOk
  | some sender =>
    simp only [hS] at hOk
    split at hOk
    · exact Except.noConfusion hOk
    split at hOk
    · exact Except.noConfusion hOk
    rename_i hA
    split at hOk
    · exact Except.noConfusion hOk
    rw [addBalance] at hOk
    simp only [hS] at hOk
    cases hT : findUser s.users uid with
    | none => simp only [hT] at hOk; exact Except.noConfusion hOk
    | some target =>
      simp only [hT] at hOk
      have hA' : 0 < a := not_not.mp hA
      have hTb : 0 ≤ target.balance := hN target (mem_of_findUser hT)
      split at hOk
      · exact Except.noConfusion hOk
      by_cases hss : sid = uid
      · subst hss
        simp only [eq_self_iff_true, ite_true, not_true, false_and, and_false,
          if_false] at hOk
        split at hOk
        · exact Except.noConfusion hOk
        injection hOk with hr
        subst hr
        exact NonNeg_setBalance sid hN (by linarith)
      · simp only [if_neg hss] at hOk
        cases hgp : getParent s.users uid with
        | some parent =>
          simp only [hgp] at hOk
          cases hP : findUser s.users parent.uid with
          | none => simp only [hP] at hOk; exact Except.noConfusion hOk
          | some payer =>
            simp only [hP] at hOk
            have hPb : 0 ≤ payer.balance := hN payer (mem_of_findUser hP)
            by_cases hds : parent.uid = sid
            all_goals
              first
              | simp only [if_pos hds] at hOk
              | simp only [if_neg hds] at hOk
            all_goals
              split at hOk
              · exact Except.noConfusion hOk
              rename_i hsuff
              have hge : ¬ payer.balance < a := fun hlt => hsuff ⟨hss, hlt⟩
              split at hOk
              · exact Except.noConfusion hOk
              split at hOk
              · exact Except.noConfusion hOk
              injection hOk with hr
              subst hr
              show NonNeg (setBalance
                (if ¬ sid = uid ∧ ¬ parent.uid = uid then _ else s.users) uid _)
              by_cases hc : ¬ sid = uid ∧ ¬ parent.uid = uid
              · rw [if_pos hc]
                exact NonNeg_setBalance uid
                  (NonNeg_setBalance parent.uid hN (by linarith [not_lt.mp hge]))
                  (by linarith)
              · rw [if_neg hc]
                exact NonNeg_setBalance uid hN (by linarith)
        | none =>
          simp only [hgp, eq_self_iff_true, ite_true] at hOk
          have hSb : 0 ≤ sender.balance := hN sender (mem_of_findUser hS)
          split at hOk
          · exact Except.noConfusion hOk
          rename_i hsuff
          have hge : ¬ sender.balance < a := fun hlt => hsuff ⟨hss, hlt⟩
          split at hOk
          · exact Except.noConfusion hOk
          split at hOk
          · exact Except.noConfusion hOk
          injection hOk with hr
          subst hr
          show NonNeg (setBalance (if ¬ sid = uid ∧ ¬ sid = uid then _ else s.users) uid _)
          by_cases hc : ¬ sid = uid ∧ ¬ sid = uid
          · rw [if_pos hc]
            exact NonNeg_setBalance uid
              (NonNeg_setBalance sid hN (by linarith [not_lt.mp hge]))
              (by linarith)
          · rw [if_neg hc]
            exact NonNeg_setBalance uid hN (by linarith)

/-- The canManage characterization claimed by the specification, written
from its wording for comparison with the implemented predicate. -/
def canManageSpec (us : List UserRec) (actor subject : UserRec) : Prop :=
  actor.role = "super_admin" ∨
  (roleHierarchy subject.role < roleHierarchy actor.role ∧ reaches us actor.uid subject.uid) ∨
  ((actor.role = "admin" ∨ actor.role = "super_admin") ∧
    ¬ (subject.role = "admin" ∨ subject.role = "super_admin"))

/-- C5 counterexample: with a super_admin actor and a super_admin subject
the claimed characterization holds (first disjunct), yet the implemented
`canManageUser` compares equal ranks (4 < 4) and returns false. -/
theorem C5_counterexample :
    canManageSpec [rootSA] rootSA rootSA ∧ canManageUser (some rootSA) rootSA = false :=
  ⟨Or.inl rfl, by decide⟩

/-- C5 (amended): `canManageUser` is exactly the role-rank comparison
(super_admin 4, admin 3, moderator 2, user 1, anything else 0) with no
ancestry condition; in particular it is false on actor == subject and for
a missing current user. -/
theorem C5_canManageUser_rank (cu t : UserRec) :
    (canManageUser (some cu) t = true ↔ roleHierarchy t.role < roleHierarchy cu.role) ∧
    canManageUser (some cu) cu = false ∧
    (∀ t2 : UserRec, canManageUser none t2 = false) := by
  refine ⟨?_, ?_, fun _ => rfl⟩
  · simp [canManageUser]
  · simp [canManageUser]

/-- Witness for the amended C5 at concrete users. -/
theorem C5_canManageUser_rank_witness :
    (canManageUser (some rootSA) adminChild = true ↔
      roleHierarchy adminChild.role < roleHierarchy rootSA.role) ∧
    canManageUser (some rootSA) rootSA = false :=
  ⟨(C5_canManageUser_rank rootSA adminChild).1, (C5_canManageUser_rank rootSA rootSA).2.1⟩

lemma roleUpdateAllowed_admin (R tr : String) :
    roleUpdateAllowed "admin" R tr = true ↔
      ¬ (R = "admin" ∨ R = "super_admin") ∧ ¬ (tr = "admin" ∨ tr = "super_admin") := by
  rw [roleUpdateAllowed]
  rw [if_neg (by decide : ¬ ("admin" : String) = "super_admin")]
  by_cases h1 : R = "admin" ∨ R = "super_admin" <;>
    by_cases h2 : tr = "admin" ∨ tr = "super_admin" <;>
    simp [h1, h2]

/-- C6: with a validated role value, an admin-initiated role change
succeeds only towards a role in the set permitted for admins and only on a
target that is not already admin or super_admin; a rejected change writes
nothing; at registration an admin-assigned role is granted exactly from
that set. -/
theorem C6_admin_role_rule (us : List UserRec) (targetId : Nat) (R : String)
    (target : UserRec)
    (hR : R = "user" ∨ R = "moderator" ∨ R = "admin" ∨ R = "super_admin")
    (hT : findUser us targetId = some target) :
    ((updateUserRoleOp us "admin" targetId R).1 = true →
      (R = "user" ∨ R = "moderator" ∨ R = "admin") ∧
      ¬ (target.role = "admin" ∨ target.role = "super_admin")) ∧
    ((updateUserRoleOp us "admin" targetId R).1 = false →
      (updateUserRoleOp us "admin" targetId R).2 = us) ∧
    (∀ R', registerAssignedRole "admin" (some R) = .assigned R' →
      R' = R ∧ (R = "user" ∨ R = "moderator" ∨ R = "admin")) := by
  refine ⟨?_, ?_, ?_⟩
  · intro hOk
    simp only [updateUserRoleOp, hT] at hOk
    split at hOk
    · rename_i hall
      rcases (roleUpdateAllowed_admin R target.role).mp hall with ⟨hnR, hnT⟩
      refine ⟨?_, hnT⟩
      rcases hR with h | h | h | h
      · exact Or.inl h
      · exact Or.inr (Or.inl h)
      · exact absurd (Or.inl h) hnR
      · exact absurd (Or.inr h) hnR
    · cases hOk
  · intro hF
    simp only [updateUserRoleOp, hT]
    simp only [updateUserRoleOp, hT] at hF
    split at hF
    · cases hF
    · rename_i hall
      simp [hall]
  · intro R' hreg
    by_cases hRset : R = "user" ∨ R = "moderator" ∨ R = "admin"
    · rw [registerAssignedRole] at hreg
      rw [if_neg (by decide : ¬ ("admin" : String) = "super_admin"),
        if_pos ⟨rfl, hRset⟩] at hreg
      injection hreg with he
      exact ⟨he.symm, hRset⟩
    · rw [registerAssignedRole] at hreg
      rw [if_neg (by decide : ¬ ("admin" : String) = "super_admin"),
        if_neg (fun hc => hRset hc.2),
        if_neg (fun hc => hc.1 (Or.inl rfl))] at hreg
      cases hreg

/-- Witness for C6 at a concrete store and role values. -/
theorem C6_admin_role_rule_witness :
    ((updateUserRoleOp stB.users "admin" 3 "moderator").1 = true →
      (("moderator" = "user" ∨ ("moderator" : String) = "moderator" ∨ ("moderator" : String) = "admin") ∧
        ¬ (userChild.role = "admin" ∨ userChild.role = "super_admin"))) ∧
    (∀ R', registerAssignedRole "admin" (some "moderator") = .assigned R' →
      R' = "moderator" ∧
        (("moderator" : String) = "user" ∨ ("moderator" : String) = "moderator" ∨
          ("moderator" : String) = "admin")) := by
  have h := C6_admin_role_rule stB.users 3 "moderator" userChild
    (Or.inr (Or.inl rfl)) (by decide)
  exact ⟨h.1, h.2.2⟩

/-- C9: in a well-formed store every parent chain terminates, no user is
its own descendant (the same-id check returns false immediately), and
`isInDownline a c` holds exactly when the parent chain from c reaches a. -/
theorem C9_hierarchy_acyclic {us : List UserRec} (h : wfUsers us = true) :
    (∀ c, ∃ n, parentIterN us n c = none) ∧
    (∀ a, isInDownline us a a = false) ∧
    (∀ a c, isInDownline us a c = true ↔ reaches us a c) := by
  refine ⟨parent_chain_terminates h, ?_, isInDownline_iff_reaches h⟩
  intro a
  rw [isInDownline]
  exact isInDownlineF_self us us.length a

/-- Witness for C9 on a concrete well-formed store. -/
theorem C9_hierarchy_acyclic_witness :
    (∃ n, parentIterN stA.users n 2 = none) ∧
    isInDownline stA.users 2 2 = false ∧
    (isInDownline stA.users 1 2 = true ↔ reaches stA.users 1 2) := by
  have h := @C9_hierarchy_acyclic stA.users (by decide)
  exact ⟨h.1 2, h.2.1 2, h.2.2 1 2⟩

/-- C10: `getDownline` of an existing user with includeSelf starts with
that user record followed by exactly its descendants; for a missing user
id it reports no error, returning `[]` without includeSelf and `[null]`
with includeSelf. -/
theorem C10_downline_missing_user {us : List UserRec} (h : wfUsers us = true) (c : Nat) :
    (findUser us c = none →
      getDownline us c false = [] ∧ getDownline us c true = [none]) ∧
    (∀ u, findUser us c = some u →
      getDownline us c true = some u :: getDownline us c false) ∧
    (∀ v, some v ∈ getDownline us c false ↔ v ∈ us ∧ reaches us c v.uid) ∧
    none ∉ getDownline us c false := by
  refine ⟨?_, ?_, mem_getDownline_iff h c, ?_⟩
  · intro hfc
    have hch := childrenOf_of_missing h hfc
    constructor
    · rw [getDownline, getDownlineF_succ, hch]
      simp
    · rw [getDownline, getDownlineF_succ, hch, hfc]
      simp
  · intro u hfc
    rw [getDownline, getDownline, getDownlineF_succ, getDownlineF_succ, hfc]
    simp
  · rw [getDownline]
    exact none_not_mem_getDownlineF us (us.length + 1) c

/-- Witness for C10 on a concrete store: an existing root and a missing id. -/
theorem C10_downline_missing_user_witness :
    (getDownline stA.users 7 false = [] ∧ getDownline stA.users 7 true = [none]) ∧
    getDownline stA.users 1 true = some rootSA :: getDownline stA.users 1 false ∧
    (some adminChild ∈ getDownline stA.users 1 false ↔
      adminChild ∈ stA.users ∧ reaches stA.users 1 adminChild.uid) := by
  have h7 := @C10_downline_missing_user stA.users (by decide) 7
  have h1 := @C10_downline_missing_user stA.users (by decide) 1
  exact ⟨h7.1 (by decide), h1.2.1 rootSA (by decide), h1.2.2.1 adminChild⟩

/-- C3: any error response from either balance route leaves the
observable store unchanged (the session is aborted before any buffered
write becomes visible). -/
theorem C3_atomicity (cm : UserRec → UserRec → Bool) (s : St) (sid uid : Nat)
    (a : Rat) (d : Option String) :
    (∀ e, addBalanceRoute s sid uid a d = .error e → runOp cm s (.add sid uid a d) = s) ∧
    (∀ e, deductBalanceRoute cm s sid uid a d = .error e →
      runOp cm s (.deduct sid uid a d) = s) := by
  constructor <;> intro e he <;> simp [runOp, he]

/-- Witness for C3: a not-found credit and an insufficient-balance debit
both leave the concrete store untouched. -/
theorem C3_atomicity_witness :
    runOp cmAll stA (.add 1 99 4 (some "x")) = stA ∧
    runOp cmAll stA (.deduct 1 2 99 (some "x")) = stA := by
  have h1 := C3_atomicity cmAll stA 1 99 4 (some "x")
  have h2 := C3_atomicity cmAll stA 1 2 99 (some "x")
  exact ⟨h1.1 .notFound rfl, h2.2 .insufficient rfl⟩

/-- C1 counterexample: an admin self-recharge on a NON-root subject (the
admin was created by the root) succeeds and injects money: the subject
balance grows while the existing parent is untouched, so the claimed
conservation equation fails even though the exception clause (self-recharge
on a root) does not apply. -/
theorem C1_counterexample :
    isOkResult (addBalanceRoute stA 2 2 5 (some "topup")) = true ∧
    (findUser stA.users 2).bind UserRec.createdBy = some 1 ∧
    (findUser stA.users 1).isSome = true ∧
    balOf (runOp cmAll stA (.add 2 2 5 (some "topup"))).users 1 +
        balOf (runOp cmAll stA (.add 2 2 5 (some "topup"))).users 2 ≠
      balOf stA.users 1 + balOf stA.users 2 := by
  have hS : findUser stA.users 2 = some adminChild := by decide
  have hok := addBalanceRoute_self_ok (s := stA) (a := 5) (d := some "topup") hS
    (Or.inl rfl) (by norm_num) (by decide)
    (by rw [txnSaveOk, decide_eq_true_iff]
        refine ⟨?_, by decide, by decide⟩
        rw [mkTxn]
        norm_num)
  refine ⟨by rw [hok]; rfl, by decide, by decide, ?_⟩
  simp only [runOp, hok]
  rw [balOf_setBalance_ne _ _ _ (by decide : ¬ (1 : Nat) = 2),
    balOf_setBalance_eq _ hS]
  rw [(by decide : balOf stA.users 1 = 10), (by decide : balOf stA.users 2 = 3)]
  norm_num [adminChild]

/-- C7: the code is wrong where the claim is right.  On a successful
non-self credit the response `deductedFrom` reads the stale payer document
(fetched before the update), reporting previousBalance = before + amount
and newBalance = before, instead of the payer balance before and after the
debit.  Concretely: the root pays 4, going 10 to 6, but the response
reports (14, 10). -/
theorem C7_stale_payer_snapshot :
    deductedFromOf (addBalanceRoute stB 1 3 4 (some "gift")) =
      some (some (1, "root", 14, 10)) ∧
    balOf stB.users 1 = 10 ∧
    balOf (runOp cmAll stB (.add 1 3 4 (some "gift"))).users 1 = 6 ∧
    ¬ (14 : Rat) = 10 ∧ ¬ (10 : Rat) = 10 - 4 := by
  have hS : findUser stB.users 1 = some rootSA := by decide
  have hT : findUser stB.users 3 = some userChild := by decide
  have hok := addBalanceRoute_parent_ok (s := stB) (a := 4) (d := some "gift") hS
    (Or.inr rfl) (by norm_num) (by decide) (by decide) hT rfl hS (by decide)
    (by norm_num [rootSA])
    (by rw [txnSaveOk, decide_eq_true_iff]
        refine ⟨?_, by decide, by decide⟩
        rw [mkTxn]
        norm_num)
    (by rw [txnSaveOk, decide_eq_true_iff]
        refine ⟨?_, by decide, by decide⟩
        rw [mkTxn]
        norm_num)
  refine ⟨?_, by decide, ?_, by norm_num, by norm_num⟩
  · rw [hok]
    show some (some (1, "root", rootSA.balance + 4, rootSA.balance)) =
      some (some (1, "root", 14, 10))
    norm_num [rootSA]
  · simp only [runOp, hok]
    rw [balOf_setBalance_ne _ _ _ (by decide : ¬ (1 : Nat) = 3),
      balOf_setBalance_eq _ hS]
    norm_num [rootSA]

/-- C1 (amended): conservation under transfer holds for every successful
credit whose actor is not the subject and whose subject has an existing
parent distinct from itself: the parent's and subject's balances exchange
exactly the amount, so their sum is preserved.  (The claim as stated, also
covering self-recharges on non-root subjects, is refuted by
`C1_counterexample`.) -/
theorem C1_conservation (cm : UserRec → UserRec → Bool) {s : St}
    {sid uid pid : Nat} {a : Rat} {d : Option String} {target parent : UserRec}
    (hT : findUser s.users uid = some target)
    (hPar : target.createdBy = some pid)
    (hP : findUser s.users pid = some parent)
    (hpne : ¬ pid = uid)
    (hns : ¬ sid = uid)
    (hOk : isOkResult (addBalanceRoute s sid uid a d) = true) :
    balOf (runOp cm s (.add sid uid a d)).users pid +
        balOf (runOp cm s (.add sid uid a d)).users uid =
      balOf s.users pid + balOf s.users uid := by
  cases hr : addBalanceRoute s sid uid a d with
  | error e => rw [hr] at hOk; exact Bool.noConfusion hOk
  | ok r =>
    obtain ⟨-, husers, -, -, -⟩ :=
      addBalanceRoute_ok_parent_shape hT hPar hP hpne hns hr
    have hT2 : findUser (setBalance s.users pid (parent.balance - a)) uid =
        some target := by
      rw [findUser_setBalance_ne _ _ _ (fun h => hpne h.symm)]
      exact hT
    simp only [runOp, hr]
    rw [husers, balOf_setBalance_ne _ _ _ hpne, balOf_setBalance_eq _ hP,
      balOf_setBalance_eq _ hT2, balOf_eq_balance hT, balOf_eq_balance hP]
    ring

/-- Witness for C1 at a concrete store: the root funds its child with 4
and the two balances trade exactly that amount. -/
theorem C1_conservation_witness :
    isOkResult (addBalanceRoute stB 1 3 4 (some "gift")) = true ∧
    balOf (runOp cmAll stB (.add 1 3 4 (some "gift"))).users 1 +
        balOf (runOp cmAll stB (.add 1 3 4 (some "gift"))).users 3 =
      balOf stB.users 1 + balOf stB.users 3 := by
  have hS : findUser stB.users 1 = some rootSA := by decide
  have hT : findUser stB.users 3 = some userChild := by decide
  have hok := addBalanceRoute_parent_ok (a := 4) (d := some "gift") hS
    (Or.inr rfl) (by norm_num) (by decide) (by decide) hT rfl hS (by decide)
    (by norm_num [rootSA])
    (by rw [txnSaveOk, decide_eq_true_iff]
        refine ⟨?_, by decide, by decide⟩
        rw [mkTxn]
        norm_num)
    (by rw [txnSaveOk, decide_eq_true_iff]
        refine ⟨?_, by decide, by decide⟩
        rw [mkTxn]
        norm_num)
  have h1 : isOkResult (addBalanceRoute stB 1 3 4 (some "gift")) = true := by
    rw [hok]
    rfl
  exact ⟨h1, C1_conservation cmAll hT rfl hS (by decide) (by decide) h1⟩

/-- C8: frame of a successful POST /balance/deduct: the subject's balance
drops by exactly the amount, every other user record is untouched, and the
transaction log grows by exactly one debit record for the subject with
performedBy = actor and the raw request description — no counterpart
credit anywhere. -/
theorem C8_debit_frame {cm : UserRec → UserRec → Bool} {s : St} {aid uid : Nat}
    {a : Rat} {d : Option String} {r : DeductBalanceOk}
    (hOk : deductBalanceRoute cm s aid uid a d = .ok r) :
    balOf r.newState.users uid = balOf s.users uid - a ∧
    (∀ j, ¬ j = uid → findUser r.newState.users j = findUser s.users j) ∧
    (∃ target, findUser s.users uid = some target ∧
      r.newState.txns = s.txns ++
        [mkTxn uid "debit" a target.balance (target.balance - a) (descValue d) aid]) := by
  obtain ⟨target, hT, -, husers, htxns, -, -⟩ := deductBalanceRoute_ok_shape hOk
  refine ⟨?_, ?_, target, hT, htxns⟩
  · rw [husers, balOf_setBalance_eq _ hT, balOf_eq_balance hT]
  · intro j hj
    rw [husers, findUser_setBalance_ne _ _ _ hj]

/-- Witness for C8 at a concrete store: the root debits its child by 2,
the child drops from 3 to 1, the root record is untouched. -/
theorem C8_debit_frame_witness :
    isOkResult (deductBalanceRoute cmAll stA 1 2 2 (some "fee")) = true ∧
    balOf (runOp cmAll stA (.deduct 1 2 2 (some "fee"))).users 2 =
      balOf stA.users 2 - 2 ∧
    findUser (runOp cmAll stA (.deduct 1 2 2 (some "fee"))).users 1 =
      findUser stA.users 1 := by
  have hS : findUser stA.users 1 = some rootSA := by decide
  have hT : findUser stA.users 2 = some adminChild := by decide
  have hok := deductBalanceRoute_ok (a := 2) (d := some "fee") hS (Or.inr rfl)
    (by norm_num) (by decide) hT
    (Or.inl rfl : cmAll rootSA adminChild = true ∨ (1 : Nat) = 2)
    (by norm_num [adminChild])
    (by rw [txnSaveOk, decide_eq_true_iff]
        refine ⟨?_, by decide, by decide⟩
        rw [mkTxn]
        norm_num)
  have hfr := C8_debit_frame hok
  refine ⟨by rw [hok]; rfl, ?_, ?_⟩
  · simp only [runOp, hok]
    exact hfr.1
  · simp only [runOp, hok]
    exact hfr.2.1 1 (by decide)

/-- C4: the payer of POST /balance/add is the actor on a self-recharge,
otherwise the subject's parent when `getParent` resolves one, otherwise
the actor; whenever the payer differs from the subject, a successful
credit had a sufficiently funded payer, debited exactly the amount from
the payer, and appended one debit transaction snapshotting the payer's
balance around the debit with performedBy = actor and description
defaulting to "Transfer to {subject.username}"; and a payer short of the
amount makes the route fail with the insufficient-balance error. -/
theorem C4_payer_and_debit (s : St) (sid uid : Nat) (a : Rat) (d : Option String) :
    (sid = uid → payerIdFor s.users sid uid = sid) ∧
    (¬ sid = uid → ∀ parent, getParent s.users uid = some parent →
      payerIdFor s.users sid uid = parent.uid) ∧
    (¬ sid = uid → getParent s.users uid = none →
      payerIdFor s.users sid uid = sid) ∧
    (∀ r payer, addBalanceRoute s sid uid a d = .ok r →
      ¬ payerIdFor s.users sid uid = uid →
      findUser s.users (payerIdFor s.users sid uid) = some payer →
      ¬ payer.balance < a ∧
      balOf r.newState.users (payerIdFor s.users sid uid) = payer.balance - a ∧
      (∃ target, findUser s.users uid = some target ∧
        mkTxn (payerIdFor s.users sid uid) "debit" a payer.balance
          (payer.balance - a)
          (descOrDefault d ("Transfer to " ++ target.username)) sid ∈
          r.newState.txns)) ∧
    (∀ sender payer, findUser s.users sid = some sender →
      (sender.role = "admin" ∨ sender.role = "super_admin") →
      0 < a → validDescription d = true →
      ¬ payerIdFor s.users sid uid = uid →
      (findUser s.users uid).isSome = true →
      findUser s.users (payerIdFor s.users sid uid) = some payer →
      payer.balance < a →
      addBalanceRoute s sid uid a d = .error .insufficient) := by
  refine ⟨?_, ?_, ?_, ?_, ?_⟩
  · intro h
    rw [payerIdFor, if_pos h]
  · intro hns parent hg
    simp only [payerIdFor, if_neg hns, hg]
  · intro hns hg
    simp only [payerIdFor, if_neg hns, hg]
  · intro r payer hOk hpu hP
    by_cases hss : sid = uid
    · exact absurd (by rw [payerIdFor, if_pos hss]; exact hss) hpu
    · cases hg : getParent s.users uid with
      | some parent =>
        have hpay : payerIdFor s.users sid uid = parent.uid := by
          simp only [payerIdFor, if_neg hss, hg]
        rw [hpay] at hpu hP ⊢
        obtain ⟨target, hT, hPar, hPfind⟩ := getParent_inv hg
        have hpp : payer = parent := Option.some.inj (hP.symm.trans hPfind)
        subst hpp
        obtain ⟨hge, husers, htxns, -, -⟩ :=
          addBalanceRoute_ok_parent_shape hT hPar hPfind hpu hss hOk
        refine ⟨hge, ?_, target, hT, ?_⟩
        · rw [husers, balOf_setBalance_ne _ _ _ hpu, balOf_setBalance_eq _ hPfind]
        · simp [htxns]
      | none =>
        have hpay : payerIdFor s.users sid uid = sid := by
          simp only [payerIdFor, if_neg hss, hg]
        rw [hpay] at hpu hP ⊢
        obtain ⟨target, hT⟩ := addBalanceRoute_ok_subject hOk
        obtain ⟨hge, husers, htxns, -, -⟩ :=
          addBalanceRoute_ok_root_shape hP hT hg hss hOk
        refine ⟨hge, ?_, target, hT, ?_⟩
        · rw [husers, balOf_setBalance_ne _ _ _ hss, balOf_setBalance_eq _ hP]
        · simp [htxns]
  · intro sender payer hS hrole hA hD hpu hTsome hP hlow
    by_cases hss : sid = uid
    · exact absurd (by rw [payerIdFor, if_pos hss]; exact hss) hpu
    · cases hg : getParent s.users uid with
      | some parent =>
        have hpay : payerIdFor s.users sid uid = parent.uid := by
          simp only [payerIdFor, if_neg hss, hg]
        rw [hpay] at hP
        obtain ⟨target, hT, hPar, hPfind⟩ := getParent_inv hg
        have hpp : payer = parent := Option.some.inj (hP.symm.trans hPfind)
        rw [hpp] at hlow
        exact addBalanceRoute_parent_insufficient hS hrole hA hD hss hT hPar hPfind hlow
      | none =>
        have hpay : payerIdFor s.users sid uid = sid := by
          simp only [payerIdFor, if_neg hss, hg]
        rw [hpay] at hP
        have hps : payer = sender := Option.some.inj (hP.symm.trans hS)
        rw [hps] at hlow
        obtain ⟨target, hT⟩ := Option.isSome_iff_exists.mp hTsome
        exact addBalanceRoute_root_insufficient hS hrole hA hD hss hT hg hlow

/-- Witness for C4 at a concrete store: the root (uid 1) is the resolved
payer for a credit of its child (uid 3); the successful credit of 4
debits the root from 10 to 6, and asking for 99 instead fails with the
insufficient-balance error. -/
theorem C4_payer_and_debit_witness :
    payerIdFor stB.users 1 3 = 1 ∧
    isOkResult (addBalanceRoute stB 1 3 4 (some "gift")) = true ∧
    balOf (runOp cmAll stB (.add 1 3 4 (some "gift"))).users 1 =
      balOf stB.users 1 - 4 ∧
    addBalanceRoute stB 1 3 99 (some "gift") = .error .insufficient := by
  have hS : findUser stB.users 1 = some rootSA := by decide
  have hT : findUser stB.users 3 = some userChild := by decide
  have hok := addBalanceRoute_parent_ok (a := 4) (d := some "gift") hS
    (Or.inr rfl) (by norm_num) (by decide) (by decide) hT rfl hS (by decide)
    (by norm_num [rootSA])
    (by rw [txnSaveOk, decide_eq_true_iff]
        refine ⟨?_, by decide, by decide⟩
        rw [mkTxn]
        norm_num)
    (by rw [txnSaveOk, decide_eq_true_iff]
        refine ⟨?_, by decide, by decide⟩
        rw [mkTxn]
        norm_num)
  refine ⟨by decide, by rw [hok]; rfl, ?_, ?_⟩
  · have h4 := (C4_payer_and_debit stB 1 3 4 (some "gift")).2.2.2.1 _ rootSA hok
      (by decide) (by decide)
    have hpay : payerIdFor stB.users 1 3 = 1 := by decide
    rw [hpay] at h4
    simp only [runOp, hok]
    rw [h4.2.1, (by decide : balOf stB.users 1 = rootSA.balance)]
  · exact (C4_payer_and_debit stB 1 3 99 (some "gift")).2.2.2.2 rootSA rootSA hS
      (Or.inr rfl) (by norm_num) (by decide) (by decide) (by decide) (by decide)
      (by norm_num [rootSA])

/-- C2: from a store where every balance is non-negative, no sequence of
credit/debit requests ever drives any balance below zero; and a single
request that would — a deduct on an insufficiently funded subject, or a
credit whose resolved payer (the subject's parent) is short — fails with
the insufficient-balance error and leaves the store unchanged. -/
theorem C2_no_negative_balances (cm : UserRec → UserRec → Bool) (s : St)
    (hN : NonNeg s.users) :
    (∀ ops, NonNeg (runOps cm s ops).users) ∧
    (∀ aid uid a d actor target,
      findUser s.users aid = some actor →
      (actor.role = "admin" ∨ actor.role = "super_admin") →
      0 < a → validDescription d = true →
      findUser s.users uid = some target →
      (cm actor target = true ∨ aid = uid) →
      target.balance < a →
      deductBalanceRoute cm s aid uid a d = .error .insufficient ∧
      runOp cm s (.deduct aid uid a d) = s) ∧
    (∀ sid uid pid a d sender target parent,
      findUser s.users sid = some sender →
      (sender.role = "admin" ∨ sender.role = "super_admin") →
      0 < a → validDescription d = true →
      ¬ sid = uid →
      findUser s.users uid = some target →
      target.createdBy = some pid →
      findUser s.users pid = some parent →
      parent.balance < a →
      addBalanceRoute s sid uid a d = .error .insufficient ∧
      runOp cm s (.add sid uid a d) = s) := by
  refine ⟨?_, ?_, ?_⟩
  · have key : ∀ (ops : List BalanceOp) (t : St), NonNeg t.users →
        NonNeg (runOps cm t ops).users := by
      intro ops
      induction ops with
      | nil => intro t h; exact h
      | cons op rest ih =>
        intro t h
        have h1 : NonNeg (runOp cm t op).users := by
          cases op with
          | add sid uid a d =>
            simp only [runOp]
            cases hr : addBalanceRoute t sid uid a d with
            | ok r => exact NonNeg_addRoute_ok h hr
            | error e => exact h
          | deduct aid uid a d =>
            simp only [runOp]
            cases hr : deductBalanceRoute cm t aid uid a d with
            | ok r => exact NonNeg_deductRoute_ok h hr
            | error e => exact h
        have hstep : runOps cm t (op :: rest) = runOps cm (runOp cm t op) rest := rfl
        rw [hstep]
        exact ih _ h1
    intro ops
    exact key ops s hN
  · intro aid uid a d actor target hS hrole hA hD hT hcm hlow
    have he : deductBalanceRoute cm s aid uid a d = .error .insufficient :=
      deductBalanceRoute_insufficient hS hrole hA hD hT hcm hlow
    exact ⟨he, by simp only [runOp, he]⟩
  · intro sid uid pid a d sender target parent hS hrole hA hD hns hT hPar hP hlow
    have he : addBalanceRoute s sid uid a d = .error .insufficient :=
      addBalanceRoute_parent_insufficient hS hrole hA hD hns hT hPar hP hlow
    exact ⟨he, by simp only [runOp, he]⟩

/-- Witness for C2: the concrete store satisfies the invariant, keeps it
along a two-request run, and an oversized debit fails with the
insufficient-balance error. -/
theorem C2_no_negative_balances_witness :
    NonNeg stA.users ∧
    NonNeg (runOps cmAll stA
      [.add 1 2 2 (some "x"), .deduct 1 2 1 (some "y")]).users ∧
    deductBalanceRoute cmAll stA 1 2 99 (some "x") = .error .insufficient := by
  have hN : NonNeg stA.users := by unfold NonNeg; decide
  have h := C2_no_negative_balances cmAll stA hN
  exact ⟨hN, h.1 _, (h.2.1 1 2 99 (some "x") rootSA adminChild (by decide)
    (Or.inr rfl) (by norm_num) (by decide) (by decide) (Or.inl rfl)
    (by norm_num [adminChild])).1⟩

end UserMgmt
